import Mathlib

/-!
Shallow embedding of `looker_studio/models/report.py` (Odoo module with two
report models, `looker_studio.report` over `crm.lead` and
`looker_studio.order_report` over `sale.order`).

The host ORM (`read_group`, `search_count`, `search`, `ir.model.fields`
lookups, `safe_eval`, `strptime`, `context_today`) is modelled as an abstract
environment of `Except`-valued functions; Python runtime values appearing in
ORM rows are the inductive `PVal`; Python floats are rationals; a raised
exception is `Except.error ()`.
-/

namespace LookerStudio

/-- Python runtime values as they appear in ORM rows, record attributes and
`vals` dictionaries.  Tuples are modelled up to arity 3, which covers every
tuple the embedded code touches: `read_group` keys are scalars or
`(id, label)` pairs and domain terms are `(field, op, value)` triples.
`vrec` is a non-empty Odoo recordset (id and `name` attribute value); `vdt`
is a `datetime` carrying its day number (days since 1970-01-01; the time of
day is irrelevant to the embedded code, which only takes weekdays of
dates). -/
inductive PVal where
  | vnone
  | vbool (b : Bool)
  | vint (n : Int)
  | vfloat (q : ℚ)
  | vstr (s : String)
  | vtup0
  | vtup1 (a : PVal)
  | vtup2 (a b : PVal)
  | vtup3 (a b c : PVal)
  | vrec (id : Int) (nm : PVal)
  | vdt (z : Int)
deriving DecidableEq

/-- Python truthiness of a `PVal`. -/
def PVal.truthy : PVal → Bool
  | .vnone => false
  | .vbool b => b
  | .vint n => n != 0
  | .vfloat q => q != 0
  | .vstr s => s != ""
  | .vtup0 => false
  | .vtup1 _ => true
  | .vtup2 _ _ => true
  | .vtup3 _ _ _ => true
  | .vrec _ _ => true
  | .vdt _ => true

/-- Python `str()` of a `PVal` (the exact text of non-string reprs is an
environment-level convention; the embedded code only ever relies on `str` of
strings). -/
def PVal.pstr : PVal → String
  | .vnone => "None"
  | .vbool b => if b then "True" else "False"
  | .vint n => toString n
  | .vfloat q => toString q
  | .vstr s => s
  | .vtup0 => "()"
  | .vtup1 _ => "(tuple1)"
  | .vtup2 _ _ => "(tuple2)"
  | .vtup3 _ _ _ => "(tuple3)"
  | .vrec i _ => "record(" ++ toString i ++ ")"
  | .vdt z => "datetime(" ++ toString z ++ ")"

/-- Python `float()` of a `PVal`; non-numeric arguments raise `TypeError`
(numeric strings never occur as ORM aggregates, so they are grouped with the
failing cases). -/
def PVal.pfloat : PVal → Except Unit ℚ
  | .vbool b => .ok (if b then 1 else 0)
  | .vint n => .ok (n : ℚ)
  | .vfloat q => .ok q
  | _ => .error ()

/-- Python `x or y`. -/
def pyOr (x y : PVal) : PVal := if x.truthy then x else y

/-- `key[0] if isinstance(key, (list, tuple)) else key`; indexing an empty
tuple raises `IndexError`. -/
def keyGid : PVal → Except Unit PVal
  | .vtup0 => .error ()
  | .vtup1 a => .ok a
  | .vtup2 a _ => .ok a
  | .vtup3 a _ _ => .ok a
  | k => .ok k

/-- `key[1] if isinstance(key, (list, tuple)) and len(key) > 1 else (key or 'Undefined')`. -/
def keyLabel (key : PVal) : PVal :=
  match key with
  | .vtup2 _ b => b
  | .vtup3 _ b _ => b
  | k => pyOr k (.vstr "Undefined")

/-- Round to the nearest integer, halves up: `⌊q + 1/2⌋` computed directly
on the numerator and denominator. -/
def qround (q : ℚ) : ℤ := (2 * q.num + q.den).fdiv (2 * q.den)

/-- Python `round(q, n)` on rationals.  Both the embedding and the claim
statements use this same rounding, so the exact tie rule (Python rounds
half to even) is shared by the two sides and never load-bearing. -/
def pround (n : Nat) (q : ℚ) : ℚ := (qround (q * (10 : ℚ) ^ n) : ℚ) / (10 : ℚ) ^ n

/-- Days-to-civil-date conversion (day number 0 = 1970-01-01). -/
def civilFromDays (z0 : Int) : Int × Int × Int :=
  let z := z0 + 719468
  let era := Int.fdiv z 146097
  let doe := z - era * 146097
  let yoe := Int.fdiv (doe - Int.fdiv doe 1460 + Int.fdiv doe 36524 - Int.fdiv doe 146096) 365
  let y := yoe + era * 400
  let doy := doe - (365 * yoe + Int.fdiv yoe 4 - Int.fdiv yoe 100)
  let mp := Int.fdiv (5 * doy + 2) 153
  let d := doy - Int.fdiv (153 * mp + 2) 5 + 1
  let m := mp + (if mp < 10 then 3 else -9)
  (y + (if m ≤ 2 then 1 else 0), m, d)

def pad2 (n : Int) : String := (if n < 10 then "0" else "") ++ toString n

/-- `strftime('%Y-%m-%d')` of the date with day number `z`. -/
def fmtDate (z : Int) : String :=
  let c := civilFromDays z
  toString c.1 ++ "-" ++ pad2 c.2.1 ++ "-" ++ pad2 c.2.2

/-- `strftime('%Y-%m-%d 00:00:00')` of the date with day number `z`. -/
def fmtDateTime0 (z : Int) : String := fmtDate z ++ " 00:00:00"

/-- Python `datetime.weekday()` (Monday = 0) of day number `z`
(day 0 = 1970-01-01 was a Thursday). -/
def pyWeekday (z : Int) : Nat := ((z + 3).emod 7).toNat

/-- Membership of a character in a string (`'.' in field_name`), computed
over the character list. -/
def strContains (s : String) (c : Char) : Bool := s.data.contains c

/-- Split a character list on a separator character. -/
def splitCharsOn (c : Char) : List Char → List (List Char)
  | [] => [[]]
  | ch :: t =>
    let r := splitCharsOn c t
    if ch = c then [] :: r else (ch :: r.headD []) :: r.tail

/-- Python `s.split('.')`, computed over the character list. -/
def strSplitDot (s : String) : List String :=
  (splitCharsOn '.' s.data).map String.mk

/-- Python dict assignment `m[k] = v` on an insertion-ordered association
list: replaces in place, appends if the key is new. -/
def dictSet {κ α : Type} [DecidableEq κ] (m : List (κ × α)) (k : κ) (v : α) : List (κ × α) :=
  match m with
  | [] => [(k, v)]
  | (k0, v0) :: t => if k0 = k then (k, v) :: t else (k0, v0) :: dictSet t k v

/-- Python `m.get(k)` on an association list. -/
def dictGet {κ α : Type} [DecidableEq κ] : List (κ × α) → κ → Option α
  | [], _ => none
  | (k0, v0) :: t, k => if k0 = k then some v0 else dictGet t k

/-- `mapM` over `Except`, written as a plain structural recursion so the
proofs can proceed by list induction. -/
def exMap {α β : Type} (f : α → Except Unit β) : List α → Except Unit (List β)
  | [] => .ok []
  | a :: l => do
    let b ← f a
    let bs ← exMap f l
    return b :: bs

/-- `foldl` over `Except`, written as a plain structural recursion. -/
def exFold {σ α : Type} (f : σ → α → Except Unit σ) (init : σ) : List α → Except Unit σ
  | [] => .ok init
  | a :: l => do
    let s ← f init a
    exFold f s l

/-- One row of a `read_group` result: the grouping/aggregate columns as a
Python dict, plus the `__count` aggregate (an integer the ORM always
supplies on `lazy=False` calls). -/
structure Row where
  fields : List (String × PVal)
  count : Int
deriving DecidableEq

/-- `g.get(k)` on a `read_group` row (`None` when absent). -/
def Row.get (g : Row) (k : String) : PVal :=
  (dictGet g.fields k).getD .vnone

/-- Abstract host environment of the `crm.lead`-backed report model.
`.error ()` models a raised exception in the host call. -/
structure CrmEnv where
  /-- `safe_eval` of a stored domain text. -/
  safeEval : String → Except Unit (List PVal)
  /-- `crm.lead.read_group(domain, fields, groupby, lazy=False)`. -/
  readGroup : List PVal → List String → List String → Except Unit (List Row)
  /-- `crm.lead.search_count(domain)`. -/
  searchCount : List PVal → Except Unit Int
  /-- The truthy `field_description` of the `ir.model.fields` row of a
  `crm.lead` field, when that row exists and its description is truthy
  (the `ir.model.fields` search itself does not raise). -/
  fieldDesc : String → Option String
  /-- `fields.Date.context_today(self)` as a day number. -/
  today : Int

/-- A stored `looker_studio.report` record.  Unset `Selection`/`Text` fields
read as Python `False`/empty, which the code only ever tests for truthiness,
so they are modelled as the empty string.  `ex` is whether `self.exists()`
is non-empty. -/
structure CrmReport where
  name : String := ""
  domain : String := ""
  group_field : String := ""
  value_field : String := ""
  chart_type : String := "bar"
  limit : Int := 1000
  pie_description : String := ""
  line_description : String := ""
  bar_description : String := ""
  success_domain : String := ""
  ex : Bool := true
deriving DecidableEq

/-- `LookerReport._eval_domain`: empty text or a failing `safe_eval` gives
`[]`, otherwise the evaluated value. -/
def crmEvalDomain (env : CrmEnv) (r : CrmReport) : List PVal :=
  if r.domain = "" then []
  else
    match env.safeEval r.domain with
    | .ok d => d
    | .error _ => []

/-- The dict `get_chart_data` returns; `count_values` holds the integer
`__count` aggregates, the two value lists hold Python values. -/
structure ChartData where
  labels : List String
  count_values : List Int
  sum_values : List PVal
  line_labels : List String
  line_values : List PVal
deriving DecidableEq

/-- An element of `group_entries` in `get_chart_data`. -/
structure GroupEntry where
  gid : PVal
  label : String
  count : Int
  sum : ℚ
deriving DecidableEq

/-- The `sum_map` built from
`read_group(domain, [group_field, value_field], [group_field])` when a value
field is set, with the `read_group` exception swallowed to `[]`.  The same
code appears in `LookerReport.get_chart_data`, the dotted branch and the
plain branch of `LookerOrderReport.get_chart_data`. -/
def sumMapOf (rgF : List PVal → List String → List String → Except Unit (List Row))
    (dom : List PVal) (gf vf : String) : Except Unit (List (PVal × PVal)) :=
  if vf ≠ "" then
    let grpSum :=
      match rgF dom [gf, vf] [gf] with
      | .ok gs => gs
      | .error _ => []
    exFold (fun m g => do
      let gid ← keyGid (g.get gf)
      return dictSet m gid (pyOr (g.get vf) (.vfloat 0))) [] grpSum
  else .ok []

/-- One iteration of the `for g in groups` loop building `group_entries` in
`LookerReport.get_chart_data`; `float(sval)` raises on non-numeric values. -/
def crmEntry (gf vf : String) (sumMap : List (PVal × PVal)) (g : Row) :
    Except Unit GroupEntry := do
  let key := g.get gf
  let gid ← keyGid key
  let lbl := keyLabel key
  let cnt := g.count
  let sval : PVal :=
    match dictGet sumMap gid with
    | some v => v
    | none => if vf ≠ "" then .vfloat 0 else .vint cnt
  let s ← sval.pfloat
  return { gid := gid, label := lbl.pstr, count := cnt, sum := s }

/-- `group_entries` as built in the group branch of
`LookerReport.get_chart_data`. -/
def crmEntries (env : CrmEnv) (r : CrmReport) (dom : List PVal) :
    Except Unit (List GroupEntry) := do
  let groups :=
    match env.readGroup dom [r.group_field] [r.group_field] with
    | .ok gs => gs
    | .error _ => []
  let sumMap ← sumMapOf env.readGroup dom r.group_field r.value_field
  exMap (crmEntry r.group_field r.value_field sumMap) groups

/-- Sort key of the Top-N truncation: per-group sum when a value field is
set, per-group count otherwise. -/
def entryKey (vf : String) (e : GroupEntry) : ℚ :=
  if vf ≠ "" then e.sum else (e.count : ℚ)

/-- Stable insertion into a descending-sorted list: a newcomer with an equal
key goes after the entries already placed, matching Python's stable
`sorted(..., reverse=True)`. -/
def insDescBy {α : Type} (key : α → ℚ) (e : α) : List α → List α
  | [] => [e]
  | x :: xs => if key e ≥ key x then e :: x :: xs else x :: insDescBy key e xs

/-- Stable descending sort by `key`
(`sorted(group_entries, key=..., reverse=True)`). -/
def sortDescBy {α : Type} (key : α → ℚ) : List α → List α
  | [] => []
  | x :: xs => insDescBy key x (sortDescBy key xs)

/-- The `limit` truncation applied to `group_entries` in
`LookerReport.get_chart_data` and in the dotted-field branch of
`LookerOrderReport.get_chart_data`: `limit_n` is the stored limit when
truthy and positive, else `0`, and the Top-N cut applies when `limit_n` is
non-zero and exceeded. -/
def applyLimit (limitI : Int) (vf : String) (entries : List GroupEntry) :
    List GroupEntry :=
  if 0 < limitI ∧ limitI.toNat < entries.length then
    (sortDescBy (entryKey vf) entries).take limitI.toNat
  else entries

/-- The `ts_map` (day string → aggregated value) built from the time-series
`read_group` rows: value-field sum (`or 0.0`) when a value field is set,
`__count` otherwise. -/
def tsMapOf (vf : String) (rows : List Row) : Except Unit (List (String × PVal)) :=
  exFold (fun m g => do
    let day ← keyGid (g.get "create_date")
    return dictSet m day.pstr
      (if vf ≠ "" then pyOr (g.get vf) (.vfloat 0) else .vint g.count)) [] rows

/-- The `ts_success_map` (day string → `__count`) of the success-domain
time-series rows. -/
def tsSuccMapOf (rows : List Row) : Except Unit (List (String × PVal)) :=
  exFold (fun m g => do
    let day ← keyGid (g.get "create_date")
    return dictSet m day.pstr (.vint g.count)) [] rows

/-- The percentage of one day in the success branch:
`(float(succ) / float(total) * 100.0) if total else 0.0`. -/
def succPerc (total succ : PVal) : Except Unit ℚ :=
  if total.truthy then do
    let s ← succ.pfloat
    let t ← total.pfloat
    pure (s / t * 100)
  else pure 0

/-- One iteration of the 14-day loop building `line_labels`/`line_values`. -/
def tsDay (vf : String) (successDom : List PVal)
    (tsMap tsSuccMap : List (String × PVal)) (today : Int) (i : Nat) :
    Except Unit (String × PVal) :=
  let dayS := fmtDate (today - (13 - (i : Int)))
  if successDom ≠ [] then do
    let perc ← succPerc ((dictGet tsMap dayS).getD (.vint 0))
      ((dictGet tsSuccMap dayS).getD (.vint 0))
    return (dayS, .vfloat (pround 1 perc))
  else
    .ok (dayS, (dictGet tsMap dayS).getD (if vf ≠ "" then .vfloat 0 else .vint 0))

/-- The `ts_success_map` step of the crm time-series block: read the
success-domain day counts (exception swallowed to `[]`) when a success
domain is set, the empty map otherwise. -/
def tsSuccPart (rgF : List PVal → List String → List String → Except Unit (List Row))
    (tsDom successDom : List PVal) : Except Unit (List (String × PVal)) :=
  if successDom ≠ [] then
    let succGroups :=
      match rgF (tsDom ++ successDom) ["create_date"] ["create_date:day"] with
      | .ok gs => gs
      | .error _ => []
    tsSuccMapOf succGroups
  else pure []

/-- The time-series domain: the report domain plus the 14-day
`create_date` window ending today. -/
def tsDomOf (today : Int) (dom : List PVal) : List PVal :=
  dom ++
    [.vtup3 (.vstr "create_date") (.vstr ">=") (.vstr (fmtDateTime0 (today - 13))),
     .vtup3 (.vstr "create_date") (.vstr "<") (.vstr (fmtDateTime0 (today + 1)))]

/-- The time-series `read_group` rows, exception swallowed to `[]`: grouped
by day, with the value field added when one is set. -/
def tsGroupsOf (rgF : List PVal → List String → List String → Except Unit (List Row))
    (today : Int) (vf : String) (dom : List PVal) : List Row :=
  match (if vf ≠ "" then rgF (tsDomOf today dom) ["create_date", vf] ["create_date:day"]
         else rgF (tsDomOf today dom) ["create_date"] ["create_date:day"]) with
  | .ok gs => gs
  | .error _ => []

/-- The time-series block (last 14 days by `create_date`) of both
`get_chart_data` methods.  The success-domain branch exists only in the crm
model; the order model's block is this same code with `successDom = []`. -/
def tsPart (rgF : List PVal → List String → List String → Except Unit (List Row))
    (today : Int) (vf : String) (dom : List PVal) (successDom : List PVal) :
    Except Unit (List String × List PVal) := do
  let tsMap ← tsMapOf vf (tsGroupsOf rgF today vf dom)
  let tsSuccMap ← tsSuccPart rgF (tsDomOf today dom) successDom
  let pairs ← exMap (tsDay vf successDom tsMap tsSuccMap today) (List.range 14)
  return (pairs.map (·.1), pairs.map (·.2))

/-- `success_dom = safe_eval(self.success_domain) or []` with exceptions
swallowed (`LookerReport.get_chart_data`). -/
def crmSuccessDom (env : CrmEnv) (r : CrmReport) : List PVal :=
  if r.success_domain ≠ "" then
    match env.safeEval r.success_domain with
    | .ok d => d
    | .error _ => []
  else []

/-- The bar/pie aggregation of `LookerReport.get_chart_data`: labels, counts
and sums, before the time-series block. -/
def crmMainPart (env : CrmEnv) (r : CrmReport) (dom : List PVal) :
    Except Unit (List String × List Int × List PVal) :=
  if r.group_field ≠ "" then do
    let entries ← crmEntries env r dom
    let entries := applyLimit r.limit r.value_field entries
    return (entries.map (·.label), entries.map (·.count),
            entries.map (fun e => PVal.vfloat e.sum))
  else do
    let total ← env.searchCount dom
    if r.value_field ≠ "" then do
      let rows ← env.readGroup dom [r.value_field] []
      let totalSum :=
        match rows with
        | [] => PVal.vfloat 0
        | g :: _ => g.get r.value_field
      return (["All"], [total], [pyOr totalSum (.vfloat 0)])
    else
      return (["All"], [total], [PVal.vint total])

/-- The body of `LookerReport.get_chart_data` inside its outer `try`. -/
def crmChartBody (env : CrmEnv) (r : CrmReport) : Except Unit ChartData := do
  let dom := crmEvalDomain env r
  let (labels, counts, sums) ← crmMainPart env r dom
  let (ll, lv) ← tsPart env.readGroup env.today r.value_field dom (crmSuccessDom env r)
  return { labels := labels, count_values := counts, sum_values := sums,
           line_labels := ll, line_values := lv }

/-- The zeroed result returned by the outer `except` of both
`get_chart_data` methods. -/
def zeroChart : ChartData :=
  { labels := [], count_values := [], sum_values := [], line_labels := [],
    line_values := [] }

/-- `LookerReport.get_chart_data`: the body with the outer catch-all
substituting the zeroed result. -/
def crmGetChartData (env : CrmEnv) (r : CrmReport) : ChartData :=
  match crmChartBody env r with
  | .ok d => d
  | .error _ => zeroChart

/-- A `sale.order` record as seen by the weekday branch: its `date_order`
value and its remaining attributes. -/
structure OrderRec where
  date_order : PVal
  attrs : List (String × PVal)
deriving DecidableEq

/-- `getattr(r, f)`: a missing attribute raises `AttributeError`. -/
def OrderRec.attr (r : OrderRec) (f : String) : Except Unit PVal :=
  match dictGet r.attrs f with
  | some v => .ok v
  | none => .error ()

/-- The `ir.model.fields` metadata the order model reads of one field:
truthy `field_description` and `relation` when set, and the `ttype`. -/
structure FieldMeta where
  desc : Option String
  ttype : String
  relation : Option String
deriving DecidableEq

/-- Abstract host environment of the `sale.order`-backed report model. -/
structure OrderEnv where
  /-- `safe_eval` of a stored domain text. -/
  safeEval : String → Except Unit (List PVal)
  /-- `sale.order.read_group(domain, fields, groupby, lazy=False)`. -/
  readGroup : List PVal → List String → List String → Except Unit (List Row)
  /-- `sale.order.search_count(domain)`. -/
  searchCount : List PVal → Except Unit Int
  /-- `sale.order.search(domain)`. -/
  search : List PVal → Except Unit (List OrderRec)
  /-- `datetime.strptime(s, '%Y-%m-%d %H:%M:%S')` as a day number; `none`
  models the `ValueError` of an unparseable string. -/
  strptime : String → Option Int
  /-- metadata of a `sale.order` field from `ir.model.fields`, when a row
  exists (the `ir.model.fields` search itself does not raise). -/
  fieldMeta : String → Option FieldMeta
  /-- metadata of a field of another model (first argument), when found. -/
  relFieldMeta : String → String → Option FieldMeta
  /-- `self.env[rel_model].sudo().browse(gid)` followed by
  `getattr(rel_rec, rel_field, None)`, as a Python value. -/
  resolve : String → PVal → String → Except Unit PVal
  /-- `fields.Date.context_today(self)` as a day number. -/
  today : Int

/-- A stored `looker_studio.order_report` record (same conventions as
`CrmReport`; this model has no `success_domain`). -/
structure OrderReport where
  name : String := ""
  domain : String := ""
  group_field : String := ""
  value_field : String := ""
  chart_type : String := "bar"
  limit : Int := 1000
  pie_description : String := ""
  line_description : String := ""
  bar_description : String := ""
  ex : Bool := true
deriving DecidableEq

/-- `LookerOrderReport._eval_domain` (same code as the crm model). -/
def orderEvalDomain (env : OrderEnv) (r : OrderReport) : List PVal :=
  if r.domain = "" then []
  else
    match env.safeEval r.domain with
    | .ok d => d
    | .error _ => []

/-- `dt_obj.weekday()` of a record's `date_order` in the weekday branch:
`none` skips the record (falsy value, or an unparseable string); a truthy
value that is neither a string nor a datetime raises on `.weekday()`. -/
def recWeekday (env : OrderEnv) (dt : PVal) : Except Unit (Option Nat) :=
  if ¬ dt.truthy then .ok none
  else
    match dt with
    | .vstr s =>
      match env.strptime s with
      | some z => .ok (some (pyWeekday z))
      | none => .ok none
    | .vdt z => .ok (some (pyWeekday z))
    | _ => .error ()

/-- The update applied for one record of the weekday loop once its weekday
is known: skip (`continue`) on `none`, otherwise bump `weekday_map[wd]` and,
when a value field is set, add `float(getattr(r, vf) or 0.0)` to
`sum_map[wd]`. -/
def wkApply (vf : String) (m : (Nat → Int) × (Nat → ℚ)) (w : Option Nat)
    (r : OrderRec) : Except Unit ((Nat → Int) × (Nat → ℚ)) :=
  match w with
  | none => .ok m
  | some wd =>
    if vf ≠ "" then do
      let v ← r.attr vf
      let q ← (pyOr v (.vfloat 0)).pfloat
      return (fun i => if i = wd then m.1 i + 1 else m.1 i,
              fun i => if i = wd then m.2 i + q else m.2 i)
    else
      .ok (fun i => if i = wd then m.1 i + 1 else m.1 i, m.2)

/-- One iteration of the `for r in rows` loop of the weekday branch,
updating `weekday_map` and `sum_map`. -/
def wkStep (env : OrderEnv) (vf : String) (m : (Nat → Int) × (Nat → ℚ))
    (r : OrderRec) : Except Unit ((Nat → Int) × (Nat → ℚ)) := do
  let w ← recWeekday env r.date_order
  wkApply vf m w r

/-- The fixed weekday labels, Monday through Sunday. -/
def weekdayNames : List String :=
  ["Thứ 2", "Thứ 3", "Thứ 4", "Thứ 5", "Thứ 6", "Thứ 7", "Chủ Nhật"]

/-- The `date_order_weekday` branch of `LookerOrderReport.get_chart_data`. -/
def orderWeekdayPart (env : OrderEnv) (vf : String) (dom : List PVal) :
    Except Unit (List String × List Int × List PVal) := do
  let rows ← env.search dom
  let m ← exFold (wkStep env vf) (fun _ => 0, fun _ => 0) rows
  return (weekdayNames,
          (List.range 7).map (fun i => m.1 i),
          (List.range 7).map (fun i => PVal.vfloat (pround 2 (m.2 i))))

/-- `rel_model` in the dotted branch: the top field's relation when its
`ttype` is `many2one` (the surrounding `try` cannot fire since the
`ir.model.fields` search is total in this model). -/
def orderRelModel (env : OrderEnv) (top : String) : Option String :=
  match env.fieldMeta top with
  | some fm => if fm.ttype = "many2one" then fm.relation else none
  | none => none

/-- `target.id if hasattr(target, 'id') else target`. -/
def targetIdOf : PVal → PVal
  | .vrec i _ => .vint i
  | t => t

/-- `(target.name if hasattr(target, 'name') else str(target)) or 'Undefined'`. -/
def targetLabelOf : PVal → PVal
  | .vrec _ nm => pyOr nm (.vstr "Undefined")
  | t => pyOr (.vstr t.pstr) (.vstr "Undefined")

/-- Resolution of one group row in the dotted branch: the bucket key
`rel_id`, the bucket label `rel_label` and the sum increment `rel_sum`.  A
falsy group id and an exception or falsy target all fall to the
`(None, 'Undefined')` bucket; the exception case keeps the already-read
`rel_sum`, while the falsy-id case forces it to `0.0`. -/
def resolveGroup (env : OrderEnv) (top relField : String)
    (relModel : Option String) (sumMapTop : List (PVal × PVal)) (g : Row) :
    Except Unit (PVal × PVal × PVal) := do
  let key := g.get top
  let gid ← keyGid key
  if ¬ gid.truthy then
    return (.vnone, .vstr "Undefined", .vfloat 0)
  else
    let relSum : PVal := (dictGet sumMapTop gid).getD (.vfloat 0)
    match relModel with
    | some rm =>
      match env.resolve rm gid relField with
      | .error _ => return (.vnone, .vstr "Undefined", relSum)
      | .ok target =>
        if target.truthy then
          return (targetIdOf target, targetLabelOf target, relSum)
        else
          return (.vnone, .vstr "Undefined", relSum)
    | none =>
      return (gid, keyLabel key, relSum)

/-- Bucket update of the dotted branch: create the bucket on first sight
(label `str(rel_label)`, zero totals), then add `int(cnt or 0)` and
`float(rel_sum or 0.0)`. -/
def bucketAdd (buckets : List (PVal × GroupEntry)) (relId relLabel : PVal)
    (cnt : Int) (relSum : PVal) : Except Unit (List (PVal × GroupEntry)) := do
  let b0 :=
    match dictGet buckets relId with
    | some b => b
    | none => { gid := relId, label := relLabel.pstr, count := 0, sum := 0 }
  let q ← (pyOr relSum (.vfloat 0)).pfloat
  return dictSet buckets relId { b0 with count := b0.count + cnt, sum := b0.sum + q }

/-- The top-level field of a dotted group field. -/
def dottedTop (gf : String) : String := (strSplitDot gf).headD ""

/-- The sub-field of a dotted group field (`parts[1]`). -/
def dottedSub (gf : String) : String := ((strSplitDot gf).get? 1).getD ""

/-- The top-level grouping rows of the dotted branch, exception swallowed
to `[]`. -/
def topGroupsOf (env : OrderEnv) (dom : List PVal) (top : String) : List Row :=
  match env.readGroup dom [top] [top] with
  | .ok gs => gs
  | .error _ => []

/-- The dotted relational branch of `LookerOrderReport.get_chart_data`,
before the limit truncation: the insertion-ordered bucket dict converted to
`group_entries`. -/
def orderDottedEntries (env : OrderEnv) (r : OrderReport) (dom : List PVal) :
    Except Unit (List GroupEntry) := do
  let top := dottedTop r.group_field
  let relField := dottedSub r.group_field
  let sumMapTop ← sumMapOf env.readGroup dom top r.value_field
  let relModel := orderRelModel env top
  let buckets ← exFold (fun bs g => do
      let (relId, relLabel, relSum) ← resolveGroup env top relField relModel sumMapTop g
      bucketAdd bs relId relLabel g.count relSum) [] (topGroupsOf env dom top)
  return buckets.map (·.2)

/-- One iteration of the plain (non-dotted) group loop of
`LookerOrderReport.get_chart_data`; unlike the crm model it appends
`float(sval or 0.0)`. -/
def orderPlainRow (gf vf : String) (sumMap : List (PVal × PVal)) (g : Row) :
    Except Unit (String × Int × PVal) := do
  let key := g.get gf
  let gid ← keyGid key
  let lbl := keyLabel key
  let cnt := g.count
  let sval : PVal :=
    match dictGet sumMap gid with
    | some v => v
    | none => if vf ≠ "" then .vfloat 0 else .vint cnt
  let q ← (pyOr sval (.vfloat 0)).pfloat
  return (lbl.pstr, cnt, PVal.vfloat q)

/-- The bar/pie aggregation of `LookerOrderReport.get_chart_data`: the
weekday branch, the dotted relational branch, the plain group branch and
the no-group branch. -/
def orderMainPart (env : OrderEnv) (r : OrderReport) (dom : List PVal) :
    Except Unit (List String × List Int × List PVal) :=
  if r.group_field = "date_order_weekday" then
    orderWeekdayPart env r.value_field dom
  else if r.group_field ≠ "" ∧ strContains r.group_field '.' then do
    let entries ← orderDottedEntries env r dom
    let entries := applyLimit r.limit r.value_field entries
    return (entries.map (·.label), entries.map (·.count),
            entries.map (fun e => PVal.vfloat e.sum))
  else if r.group_field ≠ "" then do
    let groups :=
      match env.readGroup dom [r.group_field] [r.group_field] with
      | .ok gs => gs
      | .error _ => []
    let sumMap ← sumMapOf env.readGroup dom r.group_field r.value_field
    let rows ← exMap (orderPlainRow r.group_field r.value_field sumMap) groups
    return (rows.map (·.1), rows.map (·.2.1), rows.map (·.2.2))
  else do
    let total ← env.searchCount dom
    if r.value_field ≠ "" then do
      let rows ← env.readGroup dom [r.value_field] []
      let totalSum :=
        match rows with
        | [] => PVal.vfloat 0
        | g :: _ => g.get r.value_field
      return (["All"], [total], [pyOr totalSum (.vfloat 0)])
    else
      return (["All"], [total], [PVal.vint total])

/-- The body of `LookerOrderReport.get_chart_data` inside its outer `try`. -/
def orderChartBody (env : OrderEnv) (r : OrderReport) : Except Unit ChartData := do
  let dom := orderEvalDomain env r
  let (labels, counts, sums) ← orderMainPart env r dom
  let (ll, lv) ← tsPart env.readGroup env.today r.value_field dom []
  return { labels := labels, count_values := counts, sum_values := sums,
           line_labels := ll, line_values := lv }

/-- `LookerOrderReport.get_chart_data`: the body with the outer catch-all
substituting the zeroed result. -/
def orderGetChartData (env : OrderEnv) (r : OrderReport) : ChartData :=
  match orderChartBody env r with
  | .ok d => d
  | .error _ => zeroChart

/-- A Python `vals` dictionary (insertion-ordered). -/
abbrev Vals := List (String × PVal)

/-- `vals.get(k)` (`None` when absent). -/
def vget (v : Vals) (k : String) : PVal :=
  (dictGet v k).getD .vnone

/-- `k in vals`. -/
def vhas (v : Vals) (k : String) : Bool :=
  (dictGet v k).isSome

/-- `len(self) == 1 and self.exists()` for a record set. -/
def singleExisting {α : Type} (exF : α → Bool) (recs : List α) : Bool :=
  match recs with
  | [r] => exF r
  | _ => false

/-- The per-key fallback of `_ensure_auto_descriptions`: the vals value,
replaced by the single existing record's truthy field when the vals value is
falsy. -/
def ensureFallback {α : Type} (exF : α → Bool) (self : List α)
    (valsV : PVal) (recF : α → String) : PVal :=
  if ¬ valsV.truthy ∧ singleExisting exF self then
    match self with
    | [r] => if recF r ≠ "" then .vstr (recF r) else valsV
    | _ => valsV
  else valsV

/-- The local `label` helper of `LookerReport._ensure_auto_descriptions`:
the truthy `field_description` of the `crm.lead` field named by a truthy
string; non-string or unknown names fall back to the value itself, a falsy
value to the empty string. -/
def crmLabelP (env : CrmEnv) (field : PVal) : PVal :=
  if ¬ field.truthy then .vstr ""
  else
    match field with
    | .vstr s =>
      match env.fieldDesc s with
      | some d => .vstr d
      | none => .vstr s
    | f => f

/-- The filter suffix of the line descriptions. -/
def filterSuffix (dm : PVal) : String :=
  if dm.truthy then " (có áp dụng bộ lọc)" else ""

/-- The generated crm pie description. -/
def crmGenPie (env : CrmEnv) (gf : PVal) : String :=
  if gf.truthy then
    "Phân bố khách hàng tiềm năng theo " ++ (crmLabelP env gf).pstr ++ "."
  else "Phân bố khách hàng tiềm năng."

/-- The generated crm bar description. -/
def crmGenBar (env : CrmEnv) (gf vf : PVal) : String :=
  if gf.truthy ∧ vf.truthy then
    "Tổng " ++ (crmLabelP env vf).pstr ++ " theo " ++ (crmLabelP env gf).pstr ++ "."
  else if gf.truthy then
    "Số lượng khách hàng tiềm năng theo " ++ (crmLabelP env gf).pstr ++ "."
  else "Giá trị theo danh mục."

/-- The generated crm line description. -/
def crmGenLine (env : CrmEnv) (vf dm : PVal) : String :=
  if vf.truthy then
    "Xu hướng tổng " ++ (crmLabelP env vf).pstr ++
      " theo ngày trong 14 ngày gần nhất" ++ filterSuffix dm ++ "."
  else
    "Xu hướng số lượng khách hàng tiềm năng trong 14 ngày gần nhất" ++
      filterSuffix dm ++ "."

/-- One `if key not in vals: vals[key] = x` assignment. -/
def condSet (v : Vals) (key : String) (x : PVal) : Vals :=
  if vhas v key then v else dictSet v key x

/-- The shared tail of both `_ensure_auto_descriptions` bodies: assign each
of the three description keys only when absent. -/
def fillDescriptions (v : Vals) (pie bar line : String) : Vals :=
  condSet (condSet (condSet v "pie_description" (.vstr pie))
    "bar_description" (.vstr bar)) "line_description" (.vstr line)

/-- `LookerReport._ensure_auto_descriptions(vals)` on the record set `self`:
each description key absent from `vals` is assigned its generated text; keys
already present are left alone. -/
def crmEnsureAuto (env : CrmEnv) (self : List CrmReport) (vals : Vals) : Vals :=
  let gf := ensureFallback (·.ex) self (vget vals "group_field") (·.group_field)
  let vf := ensureFallback (·.ex) self (vget vals "value_field") (·.value_field)
  let dm := ensureFallback (·.ex) self (vget vals "domain") (·.domain)
  fillDescriptions vals (crmGenPie env gf) (crmGenBar env gf vf) (crmGenLine env vf dm)

/-- The `ensure_and_validate` closure of `LookerReport.create`: `UserError`
when `group_field` or `value_field` is missing or falsy in the vals dict,
otherwise the dict with descriptions filled (`self` is the empty record set
`create` runs on, so the record fallback never applies). -/
def crmEnsureAndValidate (env : CrmEnv) (v : Vals) : Except Unit Vals :=
  if ¬ (vget v "group_field").truthy ∨ ¬ (vget v "value_field").truthy then
    .error ()
  else .ok (crmEnsureAuto env [] v)

/-- One Selection/Char/Text field assignment from a vals value, as the host
ORM stores it: the string when a truthy string is given, unset otherwise. -/
def pvalToStrField (p : PVal) : String :=
  match p with
  | .vstr s => s
  | _ => ""

/-- Modelled host `super().create` / `super().write` assignment on a crm
report record: every key present in `vals` overwrites the stored field, keys
absent leave it unchanged. -/
def applyCrmVals (v : Vals) (r : CrmReport) : CrmReport :=
  { r with
    name := if vhas v "name" then pvalToStrField (vget v "name") else r.name,
    domain := if vhas v "domain" then pvalToStrField (vget v "domain") else r.domain,
    group_field := if vhas v "group_field" then pvalToStrField (vget v "group_field")
      else r.group_field,
    value_field := if vhas v "value_field" then pvalToStrField (vget v "value_field")
      else r.value_field,
    chart_type := if vhas v "chart_type" then pvalToStrField (vget v "chart_type")
      else r.chart_type,
    limit := if vhas v "limit" then
        (match vget v "limit" with | .vint n => n | _ => 0)
      else r.limit,
    pie_description := if vhas v "pie_description" then
        pvalToStrField (vget v "pie_description") else r.pie_description,
    line_description := if vhas v "line_description" then
        pvalToStrField (vget v "line_description") else r.line_description,
    bar_description := if vhas v "bar_description" then
        pvalToStrField (vget v "bar_description") else r.bar_description,
    success_domain := if vhas v "success_domain" then
        pvalToStrField (vget v "success_domain") else r.success_domain }

/-- `LookerReport.create` on a single vals dict, including the modelled host
save: the raised `UserError`, or the record stored. -/
def crmCreate (env : CrmEnv) (v : Vals) : Except Unit CrmReport := do
  let v ← crmEnsureAndValidate env v
  return applyCrmVals v {}

/-- `LookerReport.create` on a list of vals dicts: each is validated and
filled before any is stored. -/
def crmCreateMany (env : CrmEnv) (vs : List Vals) : Except Unit (List CrmReport) := do
  let vs ← exMap (crmEnsureAndValidate env) vs
  return vs.map (fun v => applyCrmVals v {})

/-- `LookerReport.write` on the record set `self` with a vals dict: the
descriptions are filled, no validation is performed, and the modelled host
write applies the vals to every record. -/
def crmWrite (env : CrmEnv) (self : List CrmReport) (v : Vals) :
    Except Unit (List CrmReport) :=
  .ok (self.map (applyCrmVals (crmEnsureAuto env self v)))

/-- `LookerOrderReport._order_field_label` on a Python value: dotted truthy
strings resolve the sub-field label through `ir.model.fields`; non-string
truthy values fall through the `isinstance` check and, being unknown field
names, come back unchanged. -/
def orderFieldLabelP (env : OrderEnv) (fieldName : PVal) : PVal :=
  if ¬ fieldName.truthy then .vstr ""
  else
    match fieldName with
    | .vstr s =>
      if strContains s '.' then
        let parts := strSplitDot s
        let top := parts.headD ""
        let sub := (parts.get? 1).getD ""
        match env.fieldMeta top with
        | some fm =>
          if sub ≠ "" ∧ fm.ttype = "many2one" ∧ fm.relation.isSome then
            let subLabel :=
              match env.relFieldMeta (fm.relation.getD "") sub with
              | some fs => fs.desc.getD sub
              | none => sub
            .vstr (subLabel ++ " (" ++ fm.desc.getD top ++ ")")
          else .vstr (s.replace "_" " ")
        | none => .vstr (s.replace "_" " ")
      else
        match env.fieldMeta s with
        | some fm => .vstr (fm.desc.getD s)
        | none => .vstr s
    | f => f

/-- The generated order pie description. -/
def orderGenPie (env : OrderEnv) (gf : PVal) : String :=
  if gf.truthy then
    "Phân bố đơn hàng theo " ++ (orderFieldLabelP env gf).pstr ++ "."
  else "Phân bố đơn hàng."

/-- The generated order bar description (`_ensure_auto_descriptions` does
not apply the duplicate-Tổng trimming of `_build_bar_description`). -/
def orderGenBar (env : OrderEnv) (gf vf : PVal) : String :=
  if gf.truthy ∧ vf.truthy then
    "Tổng " ++ (orderFieldLabelP env vf).pstr ++ " theo " ++
      (orderFieldLabelP env gf).pstr ++ "."
  else if gf.truthy then
    "Số lượng đơn hàng theo " ++ (orderFieldLabelP env gf).pstr ++ "."
  else "Giá trị theo danh mục."

/-- The generated order line description. -/
def orderGenLine (env : OrderEnv) (vf dm : PVal) : String :=
  if vf.truthy then
    "Xu hướng tổng " ++ (orderFieldLabelP env vf).pstr ++
      " theo ngày trong 14 ngày gần nhất" ++ filterSuffix dm ++ "."
  else
    "Xu hướng số lượng đơn hàng trong 14 ngày gần nhất" ++ filterSuffix dm ++ "."

/-- `LookerOrderReport._ensure_auto_descriptions(vals)` on the record set
`self`. -/
def orderEnsureAuto (env : OrderEnv) (self : List OrderReport) (vals : Vals) : Vals :=
  let gf := ensureFallback (·.ex) self (vget vals "group_field") (·.group_field)
  let vf := ensureFallback (·.ex) self (vget vals "value_field") (·.value_field)
  let dm := ensureFallback (·.ex) self (vget vals "domain") (·.domain)
  fillDescriptions vals (orderGenPie env gf) (orderGenBar env gf vf)
    (orderGenLine env vf dm)

/-- The `ensure_and_validate` closure of `LookerOrderReport.create`. -/
def orderEnsureAndValidate (env : OrderEnv) (v : Vals) : Except Unit Vals :=
  if ¬ (vget v "group_field").truthy ∨ ¬ (vget v "value_field").truthy then
    .error ()
  else .ok (orderEnsureAuto env [] v)

/-- Modelled host `super().create` / `super().write` assignment on an order
report record. -/
def applyOrderVals (v : Vals) (r : OrderReport) : OrderReport :=
  { r with
    name := if vhas v "name" then pvalToStrField (vget v "name") else r.name,
    domain := if vhas v "domain" then pvalToStrField (vget v "domain") else r.domain,
    group_field := if vhas v "group_field" then pvalToStrField (vget v "group_field")
      else r.group_field,
    value_field := if vhas v "value_field" then pvalToStrField (vget v "value_field")
      else r.value_field,
    chart_type := if vhas v "chart_type" then pvalToStrField (vget v "chart_type")
      else r.chart_type,
    limit := if vhas v "limit" then
        (match vget v "limit" with | .vint n => n | _ => 0)
      else r.limit,
    pie_description := if vhas v "pie_description" then
        pvalToStrField (vget v "pie_description") else r.pie_description,
    line_description := if vhas v "line_description" then
        pvalToStrField (vget v "line_description") else r.line_description,
    bar_description := if vhas v "bar_description" then
        pvalToStrField (vget v "bar_description") else r.bar_description }

/-- `LookerOrderReport.create` on a single vals dict, including the modelled
host save. -/
def orderCreate (env : OrderEnv) (v : Vals) : Except Unit OrderReport := do
  let v ← orderEnsureAndValidate env v
  return applyOrderVals v {}

/-- `LookerOrderReport.create` on a list of vals dicts. -/
def orderCreateMany (env : OrderEnv) (vs : List Vals) :
    Except Unit (List OrderReport) := do
  let vs ← exMap (orderEnsureAndValidate env) vs
  return vs.map (fun v => applyOrderVals v {})

/-- `LookerOrderReport.write` on the record set `self` with a vals dict: no
validation, descriptions filled, the modelled host write applied. -/
def orderWrite (env : OrderEnv) (self : List OrderReport) (v : Vals) :
    Except Unit (List OrderReport) :=
  .ok (self.map (applyOrderVals (orderEnsureAuto env self v)))

/-- Rounding zero gives zero. -/
theorem qround_zero : qround 0 = 0 := rfl

/-- Rounding zero to any number of decimals gives zero. -/
theorem pround_zero (n : Nat) : pround n 0 = 0 := by
  simp [pround, qround_zero]

/-- Introduction of a successful `Except` bind. -/
theorem exBind_ok_intro {α β : Type} {x : Except Unit α} {f : α → Except Unit β}
    {a : α} {b : β} (hx : x = .ok a) (hf : f a = .ok b) : x.bind f = .ok b := by
  rw [hx]
  exact hf

/-- Inversion of a successful `Except` bind. -/
theorem exBind_ok {α β : Type} {x : Except Unit α} {f : α → Except Unit β} {b : β}
    (h : x.bind f = .ok b) : ∃ a, x = .ok a ∧ f a = .ok b := by
  cases x with
  | error e => simp [Except.bind] at h
  | ok a => exact ⟨a, rfl, h⟩

/-- Inversion of a successful `Except` pure. -/
theorem exPure_ok {α : Type} {a b : α} (h : (pure a : Except Unit α) = .ok b) :
    a = b := by
  simpa [pure, Except.pure] using h

/-- When `f` succeeds pointwise with values `g`, `exMap f` succeeds with the
map of `g`. -/
theorem exMap_ok_of_forall {α β : Type} (f : α → Except Unit β) (g : α → β) :
    ∀ l : List α, (∀ a ∈ l, f a = .ok (g a)) → exMap f l = .ok (l.map g) := by
  intro l
  induction l with
  | nil => intro _; rfl
  | cons a t ih =>
    intro h
    have ha := h a (by simp)
    have ht := ih (fun x hx => h x (by simp [hx]))
    simp [exMap, ha, ht, Except.bind]
    rfl

/-- A successful `exMap` produces a list of the same length. -/
theorem exMap_ok_length {α β : Type} {f : α → Except Unit β} :
    ∀ {l : List α} {l' : List β}, exMap f l = .ok l' → l'.length = l.length := by
  intro l
  induction l with
  | nil =>
    intro l' h
    simp [exMap] at h
    simp [← h]
  | cons a t ih =>
    intro l' h
    simp only [exMap] at h
    obtain ⟨b, hb, h⟩ := exBind_ok h
    obtain ⟨bs, hbs, h⟩ := exBind_ok h
    have := exPure_ok h
    subst this
    simp [ih hbs]

/-- When a projection of every successful `f`-value is given by `g`, the
projection of a successful `exMap` is the map of `g`. -/
theorem exMap_ok_map_proj {α β γ : Type} (f : α → Except Unit β) (proj : β → γ)
    (g : α → γ) (hp : ∀ a b, f a = .ok b → proj b = g a) :
    ∀ {l : List α} {l' : List β}, exMap f l = .ok l' → l'.map proj = l.map g := by
  intro l
  induction l with
  | nil =>
    intro l' h
    simp [exMap] at h
    simp [← h]
  | cons a t ih =>
    intro l' h
    simp only [exMap] at h
    obtain ⟨b, hb, h⟩ := exBind_ok h
    obtain ⟨bs, hbs, h⟩ := exBind_ok h
    have := exPure_ok h
    subst this
    simp [hp a b hb, ih hbs]

/-- Looking up the key just set finds the new value. -/
theorem dictGet_dictSet_eq {κ α : Type} [DecidableEq κ] (m : List (κ × α)) (k : κ) (v : α) :
    dictGet (dictSet m k v) k = some v := by
  induction m with
  | nil => simp [dictSet, dictGet]
  | cons p t ih =>
    obtain ⟨k0, v0⟩ := p
    by_cases h : k0 = k <;> simp [dictSet, dictGet, h, ih]

/-- Setting one key leaves every other lookup unchanged. -/
theorem dictGet_dictSet_ne {κ α : Type} [DecidableEq κ] (m : List (κ × α)) (k k' : κ)
    (v : α) (h : k' ≠ k) : dictGet (dictSet m k v) k' = dictGet m k' := by
  induction m with
  | nil => simp [dictSet, dictGet, Ne.symm h]
  | cons p t ih =>
    obtain ⟨k0, v0⟩ := p
    by_cases h0 : k0 = k
    · subst h0
      simp [dictSet, dictGet, Ne.symm h]
    · by_cases h1 : k0 = k' <;> simp [dictSet, dictGet, h0, h1, ih, h]

/-- Two association lists agreeing on a lookup agree on membership. -/
theorem vhas_eq_of_dictGet {a b : Vals} {k : String}
    (h : dictGet a k = dictGet b k) : vhas a k = vhas b k := by
  simp [vhas, h]

/-- A conditional key fill leaves other lookups unchanged. -/
theorem dictGet_condSet_ne (v : Vals) (key : String) (x : PVal) (k : String)
    (h : k ≠ key) : dictGet (condSet v key x) k = dictGet v k := by
  unfold condSet
  split
  · rfl
  · exact dictGet_dictSet_ne _ _ _ _ h

/-- A conditional key fill on a present key is the identity. -/
theorem condSet_present (v : Vals) (key : String) (x : PVal)
    (h : vhas v key = true) : condSet v key x = v := by
  unfold condSet
  rw [if_pos h]

/-- A conditional key fill on an absent key stores the value. -/
theorem dictGet_condSet_absent (v : Vals) (key : String) (x : PVal)
    (h : vhas v key = false) : dictGet (condSet v key x) key = some x := by
  unfold condSet
  rw [if_neg (by rw [h]; exact Bool.false_ne_true), dictGet_dictSet_eq]

/-- A conditional key fill preserves membership of other keys. -/
theorem vhas_condSet_ne (v : Vals) (key : String) (x : PVal) (k : String)
    (h : k ≠ key) : vhas (condSet v key x) k = vhas v k :=
  vhas_eq_of_dictGet (dictGet_condSet_ne v key x k h)

/-- `fillDescriptions` leaves every non-description key unchanged. -/
theorem fillDescriptions_other (v : Vals) (p b l : String) (k : String)
    (h1 : k ≠ "pie_description") (h2 : k ≠ "bar_description")
    (h3 : k ≠ "line_description") :
    dictGet (fillDescriptions v p b l) k = dictGet v k := by
  unfold fillDescriptions
  rw [dictGet_condSet_ne _ _ _ _ h3, dictGet_condSet_ne _ _ _ _ h2,
    dictGet_condSet_ne _ _ _ _ h1]

/-- `fillDescriptions` passes an already present description key through
unchanged. -/
theorem fillDescriptions_present (v : Vals) (p b l : String) (k : String)
    (hk : k = "pie_description" ∨ k = "bar_description" ∨ k = "line_description")
    (h : vhas v k = true) :
    dictGet (fillDescriptions v p b l) k = dictGet v k := by
  unfold fillDescriptions
  rcases hk with hk | hk | hk <;> subst hk
  · rw [condSet_present v _ _ h, dictGet_condSet_ne _ _ _ _ (by decide),
      dictGet_condSet_ne _ _ _ _ (by decide)]
  · rw [dictGet_condSet_ne _ _ _ _ (by decide),
      condSet_present _ _ _ (by rw [vhas_condSet_ne _ _ _ _ (by decide)]; exact h),
      dictGet_condSet_ne _ _ _ _ (by decide)]
  · rw [condSet_present _ _ _ (by
        rw [vhas_condSet_ne _ _ _ _ (by decide), vhas_condSet_ne _ _ _ _ (by decide)]
        exact h),
      dictGet_condSet_ne _ _ _ _ (by decide), dictGet_condSet_ne _ _ _ _ (by decide)]

/-- `fillDescriptions` assigns the pie text when the key is absent. -/
theorem fillDescriptions_absent_pie (v : Vals) (p b l : String)
    (h : vhas v "pie_description" = false) :
    dictGet (fillDescriptions v p b l) "pie_description" = some (.vstr p) := by
  unfold fillDescriptions
  rw [dictGet_condSet_ne _ _ _ _ (by decide), dictGet_condSet_ne _ _ _ _ (by decide),
    dictGet_condSet_absent _ _ _ h]

/-- `fillDescriptions` assigns the bar text when the key is absent. -/
theorem fillDescriptions_absent_bar (v : Vals) (p b l : String)
    (h : vhas v "bar_description" = false) :
    dictGet (fillDescriptions v p b l) "bar_description" = some (.vstr b) := by
  unfold fillDescriptions
  rw [dictGet_condSet_ne _ _ _ _ (by decide),
    dictGet_condSet_absent _ _ _ (by
      rw [vhas_condSet_ne _ _ _ _ (by decide)]; exact h)]

/-- `fillDescriptions` assigns the line text when the key is absent. -/
theorem fillDescriptions_absent_line (v : Vals) (p b l : String)
    (h : vhas v "line_description" = false) :
    dictGet (fillDescriptions v p b l) "line_description" = some (.vstr l) := by
  unfold fillDescriptions
  rw [dictGet_condSet_absent _ _ _ (by
    rw [vhas_condSet_ne _ _ _ _ (by decide), vhas_condSet_ne _ _ _ _ (by decide)]
    exact h)]

/-- Spec-side predicate, following the claim: the record's `date_order` is
present and parses, and its weekday is `i`. -/
def isWeekday (env : OrderEnv) (r : OrderRec) (i : Nat) : Bool :=
  match recWeekday env r.date_order with
  | .ok (some j) => j = i
  | _ => false

/-- Spec-side value of one record for the weekday sum:
`float(getattr(r, vf) or 0.0)` (zero on failure; the theorem only uses it
where the embedded fold succeeded). -/
def recValQ (r : OrderRec) (vf : String) : ℚ :=
  match r.attr vf with
  | .ok v =>
    match (pyOr v (.vfloat 0)).pfloat with
    | .ok q => q
    | .error _ => 0
  | .error _ => 0

/-- Spec-side count, following the claim: the number of searched records
whose `date_order` falls on weekday `i`, records with a missing or
unparseable `date_order` excluded. -/
def specWkCount (env : OrderEnv) (rows : List OrderRec) (i : Nat) : Int :=
  ((rows.filter (fun r => isWeekday env r i)).length : Int)

/-- Spec-side sum, following the claim: the sum of the value field over the
records of weekday `i`, `0` when no value field is set. -/
def specWkSum (env : OrderEnv) (rows : List OrderRec) (vf : String) (i : Nat) : ℚ :=
  if vf = "" then 0
  else ((rows.filter (fun r => isWeekday env r i)).map (fun r => recValQ r vf)).sum

/-- The weekday fold computes the spec-side counts and sums on top of its
accumulator. -/
theorem wkFold_spec (env : OrderEnv) (vf : String) :
    ∀ (rows : List OrderRec) (m0 m : (Nat → Int) × (Nat → ℚ)),
      exFold (wkStep env vf) m0 rows = .ok m →
      ∀ i, m.1 i = m0.1 i + specWkCount env rows i ∧
           m.2 i = m0.2 i + specWkSum env rows vf i := by
  intro rows
  induction rows with
  | nil =>
    intro m0 m h i
    simp only [exFold] at h
    injection h with h
    subst h
    constructor
    · simp [specWkCount]
    · unfold specWkSum
      split <;> simp
  | cons r t ih =>
    intro m0 m h i
    simp only [exFold] at h
    obtain ⟨m1, h1, h2⟩ := exBind_ok h
    have iht := ih m1 m h2 i
    unfold wkStep at h1
    obtain ⟨w, hw, h1⟩ := exBind_ok h1
    cases w with
    | none =>
      simp only [wkApply] at h1
      injection h1 with h1
      subst h1
      have hcnt : specWkCount env (r :: t) i = specWkCount env t i := by
        simp [specWkCount, List.filter_cons, isWeekday, hw]
      have hsum : specWkSum env (r :: t) vf i = specWkSum env t vf i := by
        unfold specWkSum
        split
        · rfl
        · simp [List.filter_cons, isWeekday, hw]
      rw [hcnt, hsum]
      exact iht
    | some wd =>
      by_cases hiw : i = wd
      · subst hiw
        have hkeep : isWeekday env r i = true := by
          simp [isWeekday, hw]
        have hcnt : specWkCount env (r :: t) i = specWkCount env t i + 1 := by
          unfold specWkCount
          rw [List.filter_cons, if_pos (by rw [hkeep])]
          simp
        simp only [wkApply] at h1
        split at h1
        · rename_i hvf
          obtain ⟨v, hv, h1⟩ := exBind_ok h1
          obtain ⟨q, hq, h1⟩ := exBind_ok h1
          have hm1 := exPure_ok h1
          subst hm1
          have hrq : recValQ r vf = q := by
            simp [recValQ, hv, hq]
          have hsum : specWkSum env (r :: t) vf i =
              recValQ r vf + specWkSum env t vf i := by
            unfold specWkSum
            rw [if_neg hvf, if_neg hvf, List.filter_cons, if_pos (by rw [hkeep])]
            simp
          constructor
          · rw [iht.1, hcnt]
            dsimp only
            rw [if_pos rfl]
            omega
          · rw [iht.2, hsum, hrq]
            dsimp only
            rw [if_pos rfl]
            ring
        · rename_i hvf
          injection h1 with h1
          subst h1
          have hvf0 : vf = "" := by
            by_contra hc
            exact hvf hc
          constructor
          · rw [iht.1, hcnt]
            dsimp only
            rw [if_pos rfl]
            omega
          · rw [iht.2]
            simp [specWkSum, hvf0]
      · have hskip : isWeekday env r i = false := by
          simp [isWeekday, hw]
          exact fun hc => hiw hc.symm
        have hcnt : specWkCount env (r :: t) i = specWkCount env t i := by
          unfold specWkCount
          rw [List.filter_cons, if_neg (by rw [hskip]; exact Bool.false_ne_true)]
        have hsum : specWkSum env (r :: t) vf i = specWkSum env t vf i := by
          unfold specWkSum
          split
          · rfl
          · rw [List.filter_cons, if_neg (by rw [hskip]; exact Bool.false_ne_true)]
        simp only [wkApply] at h1
        split at h1
        · rename_i hvf
          obtain ⟨v, hv, h1⟩ := exBind_ok h1
          obtain ⟨q, hq, h1⟩ := exBind_ok h1
          have hm1 := exPure_ok h1
          subst hm1
          constructor
          · rw [iht.1, hcnt]
            dsimp only
            rw [if_neg hiw]
          · rw [iht.2, hsum]
            dsimp only
            rw [if_neg hiw]
        · injection h1 with h1
          subst h1
          constructor
          · rw [iht.1, hcnt]
            dsimp only
            rw [if_neg hiw]
          · rw [iht.2, hsum]

/-- Inversion of a successful `orderWeekdayPart`. -/
theorem orderWeekdayPart_ok (env : OrderEnv) (vf : String) (dom : List PVal)
    (t : List String × List Int × List PVal)
    (h : orderWeekdayPart env vf dom = .ok t) :
    ∃ rows m, env.search dom = .ok rows ∧
      exFold (wkStep env vf) (fun _ => 0, fun _ => 0) rows = .ok m ∧
      t = (weekdayNames, (List.range 7).map (fun i => m.1 i),
           (List.range 7).map (fun i => PVal.vfloat (pround 2 (m.2 i)))) := by
  unfold orderWeekdayPart at h
  obtain ⟨rows, h1, h⟩ := exBind_ok h
  obtain ⟨m, h2, h⟩ := exBind_ok h
  exact ⟨rows, m, h1, h2, (exPure_ok h).symm⟩

/-- Inserting with `insDescBy` permutes the element in. -/
theorem insDescBy_perm {α : Type} (key : α → ℚ) (e : α) :
    ∀ l : List α, (insDescBy key e l).Perm (e :: l) := by
  intro l
  induction l with
  | nil => exact List.Perm.refl _
  | cons x t ih =>
    simp only [insDescBy]
    split
    · exact List.Perm.refl _
    · exact (ih.cons x).trans (List.Perm.swap e x t)

/-- `sortDescBy` permutes its input. -/
theorem sortDescBy_perm {α : Type} (key : α → ℚ) :
    ∀ l : List α, (sortDescBy key l).Perm l := by
  intro l
  induction l with
  | nil => exact List.Perm.refl _
  | cons x t ih =>
    simp only [sortDescBy]
    exact (insDescBy_perm key x _).trans (ih.cons x)

/-- `insDescBy` preserves key-descending sortedness. -/
theorem insDescBy_pairwise {α : Type} (key : α → ℚ) (e : α) :
    ∀ l : List α, List.Pairwise (fun a b => key b ≤ key a) l →
      List.Pairwise (fun a b => key b ≤ key a) (insDescBy key e l) := by
  intro l
  induction l with
  | nil => intro _; simp [insDescBy]
  | cons x t ih =>
    intro hl
    rw [List.pairwise_cons] at hl
    simp only [insDescBy]
    split
    · rename_i hke
      refine List.Pairwise.cons ?_ (List.Pairwise.cons hl.1 hl.2)
      intro y hy
      rcases List.mem_cons.mp hy with rfl | hy
      · exact hke
      · exact le_trans (hl.1 y hy) hke
    · rename_i hke
      refine List.Pairwise.cons ?_ (ih hl.2)
      intro y hy
      have hy2 : y ∈ e :: t := ((insDescBy_perm key e t).mem_iff).mp hy
      rcases List.mem_cons.mp hy2 with rfl | hy3
      · exact le_of_not_le hke
      · exact hl.1 y hy3

/-- `sortDescBy` sorts descending by key. -/
theorem sortDescBy_pairwise {α : Type} (key : α → ℚ) :
    ∀ l : List α, List.Pairwise (fun a b => key b ≤ key a) (sortDescBy key l) := by
  intro l
  induction l with
  | nil => simp [sortDescBy]
  | cons x t ih =>
    simp only [sortDescBy]
    exact insDescBy_pairwise key x _ ih

/-- The group branch of `crmMainPart` produces the three lists from the
limit-truncated entries. -/
theorem crmMainPart_group (env : CrmEnv) (r : CrmReport) (dom : List PVal)
    (es : List GroupEntry) (t : List String × List Int × List PVal)
    (hgf : r.group_field ≠ "") (hce : crmEntries env r dom = .ok es)
    (ht : crmMainPart env r dom = .ok t) :
    t = ((applyLimit r.limit r.value_field es).map (fun e => e.label),
         (applyLimit r.limit r.value_field es).map (fun e => e.count),
         (applyLimit r.limit r.value_field es).map (fun e => PVal.vfloat e.sum)) := by
  unfold crmMainPart at ht
  rw [if_pos hgf] at ht
  obtain ⟨es', h1, h2⟩ := exBind_ok ht
  rw [hce] at h1
  injection h1 with h1
  subst h1
  exact (exPure_ok h2).symm

/-- The dotted branch of `orderMainPart` produces the three lists from the
limit-truncated bucket entries. -/
theorem orderMainPart_dotted (env : OrderEnv) (s : OrderReport) (dom : List PVal)
    (os : List GroupEntry) (u : List String × List Int × List PVal)
    (hwd : s.group_field ≠ "date_order_weekday")
    (hdot : s.group_field ≠ "" ∧ strContains s.group_field '.')
    (hoe : orderDottedEntries env s dom = .ok os)
    (hu : orderMainPart env s dom = .ok u) :
    u = ((applyLimit s.limit s.value_field os).map (fun e => e.label),
         (applyLimit s.limit s.value_field os).map (fun e => e.count),
         (applyLimit s.limit s.value_field os).map (fun e => PVal.vfloat e.sum)) := by
  unfold orderMainPart at hu
  rw [if_neg hwd, if_pos hdot] at hu
  obtain ⟨os', h1, h2⟩ := exBind_ok hu
  rw [hoe] at h1
  injection h1 with h1
  subst h1
  exact (exPure_ok h2).symm

/-- Shape of a successful `crmMainPart`: labels, counts and sums line up. -/
theorem crmMainPart_shape (env : CrmEnv) (r : CrmReport) (dom : List PVal)
    (t : List String × List Int × List PVal) (h : crmMainPart env r dom = .ok t) :
    t.1.length = t.2.1.length ∧ t.2.1.length = t.2.2.length := by
  unfold crmMainPart at h
  split at h
  · obtain ⟨es, hes, h⟩ := exBind_ok h
    have hp := exPure_ok h
    subst hp
    simp
  · obtain ⟨n, hn, h⟩ := exBind_ok h
    split at h
    · obtain ⟨rows, hrows, h⟩ := exBind_ok h
      have hp := exPure_ok h
      subst hp
      simp
    · have hp := exPure_ok h
      subst hp
      simp

/-- Shape of a successful `orderMainPart`: labels, counts and sums line up. -/
theorem orderMainPart_shape (env : OrderEnv) (s : OrderReport) (dom : List PVal)
    (t : List String × List Int × List PVal) (h : orderMainPart env s dom = .ok t) :
    t.1.length = t.2.1.length ∧ t.2.1.length = t.2.2.length := by
  unfold orderMainPart at h
  split at h
  · unfold orderWeekdayPart at h
    obtain ⟨rows, h1, h⟩ := exBind_ok h
    obtain ⟨m, h2, h⟩ := exBind_ok h
    have hp := exPure_ok h
    subst hp
    simp [weekdayNames]
  · split at h
    · obtain ⟨es, hes, h⟩ := exBind_ok h
      have hp := exPure_ok h
      subst hp
      simp
    · split at h
      · obtain ⟨gs, hgs, h⟩ := exBind_ok h
        obtain ⟨rows, hrows, h⟩ := exBind_ok h
        have hp := exPure_ok h
        subst hp
        simp
      · obtain ⟨n, hn, h⟩ := exBind_ok h
        split at h
        · obtain ⟨rows, hrows, h⟩ := exBind_ok h
          have hp := exPure_ok h
          subst hp
          simp
        · have hp := exPure_ok h
          subst hp
          simp

/-- First component of a successful `tsDay`: the formatted day. -/
theorem tsDay_fst (vf : String) (sd : List PVal) (m1 m2 : List (String × PVal))
    (today : Int) (i : Nat) (p : String × PVal)
    (h : tsDay vf sd m1 m2 today i = .ok p) :
    p.1 = fmtDate (today - 13 + i) := by
  unfold tsDay at h
  rw [show today - (13 - (i : Int)) = today - 13 + i by omega] at h
  split at h
  · obtain ⟨q, hq, h⟩ := exBind_ok h
    have := exPure_ok h
    subst this
    rfl
  · injection h with h
    subst h
    rfl

/-- Inversion of a successful `tsPart`. -/
theorem tsPart_ok (rgF : List PVal → List String → List String → Except Unit (List Row))
    (today : Int) (vf : String) (dom sd : List PVal) (p : List String × List PVal)
    (h : tsPart rgF today vf dom sd = .ok p) :
    ∃ m1 m2 pairs,
      exMap (tsDay vf sd m1 m2 today) (List.range 14) = .ok pairs ∧
      p.1 = pairs.map (·.1) ∧ p.2 = pairs.map (·.2) := by
  unfold tsPart at h
  obtain ⟨m1, h1, h⟩ := exBind_ok h
  obtain ⟨m2, h2, h⟩ := exBind_ok h
  obtain ⟨pairs, h3, h⟩ := exBind_ok h
  have := exPure_ok h
  subst this
  exact ⟨m1, m2, pairs, h3, rfl, rfl⟩

/-- A successful `tsPart` labels the 14 consecutive days ending today, in
ascending order, and produces one value per day. -/
theorem tsPart_labels (rgF : List PVal → List String → List String → Except Unit (List Row))
    (today : Int) (vf : String) (dom sd : List PVal) (p : List String × List PVal)
    (h : tsPart rgF today vf dom sd = .ok p) :
    p.1 = (List.range 14).map (fun i : Nat => fmtDate (today - 13 + (i : Int))) ∧
    p.2.length = 14 := by
  obtain ⟨m1, m2, pairs, h3, hp1, hp2⟩ := tsPart_ok rgF today vf dom sd p h
  constructor
  · rw [hp1]
    exact exMap_ok_map_proj _ _ _
      (fun a b hb => tsDay_fst vf sd m1 m2 today a b hb) h3
  · rw [hp2]
    simp [exMap_ok_length h3]

/-- Inversion of a successful `crmChartBody`. -/
theorem crmChartBody_ok (env : CrmEnv) (r : CrmReport) (d : ChartData)
    (h : crmChartBody env r = .ok d) :
    ∃ a b c ll lv,
      crmMainPart env r (crmEvalDomain env r) = .ok (a, b, c) ∧
      tsPart env.readGroup env.today r.value_field (crmEvalDomain env r)
        (crmSuccessDom env r) = .ok (ll, lv) ∧
      d = ⟨a, b, c, ll, lv⟩ := by
  unfold crmChartBody at h
  obtain ⟨⟨a, b, c⟩, h1, h⟩ := exBind_ok h
  obtain ⟨⟨ll, lv⟩, h2, h⟩ := exBind_ok h
  exact ⟨a, b, c, ll, lv, h1, h2, (exPure_ok h).symm⟩

/-- Inversion of a successful `orderChartBody`. -/
theorem orderChartBody_ok (env : OrderEnv) (s : OrderReport) (d : ChartData)
    (h : orderChartBody env s = .ok d) :
    ∃ a b c ll lv,
      orderMainPart env s (orderEvalDomain env s) = .ok (a, b, c) ∧
      tsPart env.readGroup env.today s.value_field (orderEvalDomain env s) [] =
        .ok (ll, lv) ∧
      d = ⟨a, b, c, ll, lv⟩ := by
  unfold orderChartBody at h
  obtain ⟨⟨a, b, c⟩, h1, h⟩ := exBind_ok h
  obtain ⟨⟨ll, lv⟩, h2, h⟩ := exBind_ok h
  exact ⟨a, b, c, ll, lv, h1, h2, (exPure_ok h).symm⟩

/-- A small concrete crm environment for the concrete instances below. -/
def cenvW : CrmEnv where
  safeEval := fun s => if s = "[1]" then .ok [.vint 1] else .error ()
  readGroup := fun _ _ _ => .ok []
  searchCount := fun _ => .ok 0
  fieldDesc := fun _ => none
  today := 20000

/-- A small concrete order environment for the concrete instances below. -/
def oenvW : OrderEnv where
  safeEval := fun _ => .error ()
  readGroup := fun _ _ _ => .ok []
  searchCount := fun _ => .ok 0
  search := fun _ => .ok []
  strptime := fun _ => none
  fieldMeta := fun _ => none
  relFieldMeta := fun _ _ => none
  resolve := fun _ _ _ => .error ()
  today := 20000

/-- A crm environment whose `read_group` raises. -/
def cenvErr : CrmEnv where
  safeEval := fun _ => .error ()
  readGroup := fun _ _ _ => .error ()
  searchCount := fun _ => .ok 0
  fieldDesc := fun _ => none
  today := 20000

/-- An order environment whose `search_count` raises. -/
def oenvErr : OrderEnv where
  safeEval := fun _ => .error ()
  readGroup := fun _ _ _ => .ok []
  searchCount := fun _ => .error ()
  search := fun _ => .ok []
  strptime := fun _ => none
  fieldMeta := fun _ => none
  relFieldMeta := fun _ _ => none
  resolve := fun _ _ _ => .error ()
  today := 20000

/-- Claim C10: `_eval_domain` never raises on either model: it returns `[]`
when the domain text is empty or when evaluating it fails, and the evaluated
value otherwise. -/
theorem C10_eval_domain_total (cenv : CrmEnv) (r : CrmReport)
    (oenv : OrderEnv) (s : OrderReport) :
    (r.domain = "" → crmEvalDomain cenv r = []) ∧
    (cenv.safeEval r.domain = .error () → crmEvalDomain cenv r = []) ∧
    (∀ d, r.domain ≠ "" → cenv.safeEval r.domain = .ok d → crmEvalDomain cenv r = d) ∧
    (s.domain = "" → orderEvalDomain oenv s = []) ∧
    (oenv.safeEval s.domain = .error () → orderEvalDomain oenv s = []) ∧
    (∀ d, s.domain ≠ "" → oenv.safeEval s.domain = .ok d → orderEvalDomain oenv s = d) := by
  refine ⟨fun h => ?_, fun h => ?_, fun d h1 h2 => ?_, fun h => ?_, fun h => ?_,
    fun d h1 h2 => ?_⟩
  · simp [crmEvalDomain, h]
  · unfold crmEvalDomain
    split
    · rfl
    · rw [h]
  · unfold crmEvalDomain
    rw [if_neg h1, h2]
  · simp [orderEvalDomain, h]
  · unfold orderEvalDomain
    split
    · rfl
    · rw [h]
  · unfold orderEvalDomain
    rw [if_neg h1, h2]

/-- Witness for C10 at concrete environments and records. -/
theorem C10_eval_domain_total_witness :
    crmEvalDomain cenvW { domain := "[1]" } = [.vint 1] ∧
    orderEvalDomain oenvW { domain := "[z]" } = [] :=
  ⟨(C10_eval_domain_total cenvW { domain := "[1]" } oenvW { domain := "[z]" }).2.2.1
      [.vint 1] (by decide) rfl,
   (C10_eval_domain_total cenvW { domain := "[1]" } oenvW { domain := "[z]" }).2.2.2.2.1 rfl⟩

/-- Claim C1: on both report models, whenever an exception escapes the
aggregation logic inside `get_chart_data` (the body raises), the method
swallows it and returns the zeroed dict; no error state reaches the caller. -/
theorem C1_exception_swallowed (cenv : CrmEnv) (r : CrmReport)
    (oenv : OrderEnv) (s : OrderReport)
    (hc : crmChartBody cenv r = .error ())
    (ho : orderChartBody oenv s = .error ()) :
    crmGetChartData cenv r = zeroChart ∧ orderGetChartData oenv s = zeroChart := by
  constructor <;> simp [crmGetChartData, orderGetChartData, hc, ho]

/-- Witness for C1: concrete environments whose aggregation calls raise. -/
theorem C1_exception_swallowed_witness :
    crmGetChartData cenvErr { value_field := "expected_revenue" } = zeroChart ∧
    orderGetChartData oenvErr {} = zeroChart :=
  C1_exception_swallowed cenvErr { value_field := "expected_revenue" } oenvErr {}
    rfl rfl

/-- Counterexample to claim C2: a `write` whose vals clear `group_field`
raises no `UserError`; the record is stored with `group_field` unset. -/
theorem C2_counterexample :
    (crmWrite cenvW [{ group_field := "stage_id", value_field := "expected_revenue" }]
        [("group_field", PVal.vbool false)]).map (fun l => l.map (·.group_field)) =
      .ok [""] := rfl

/-- Claim C2 as amended: `create` on either model raises `UserError` whenever
the vals dict has a missing or falsy `group_field` or `value_field`, so no
record is stored; `write`, by contrast, performs no such validation and
always succeeds on a vals dict, even one that unsets those fields. -/
theorem C2_amended (cenv : CrmEnv) (oenv : OrderEnv) (v w : Vals)
    (cself : List CrmReport) (oself : List OrderReport)
    (hv : ¬ (vget v "group_field").truthy ∨ ¬ (vget v "value_field").truthy) :
    crmCreate cenv v = .error () ∧ orderCreate oenv v = .error () ∧
    (crmWrite cenv cself w).isOk = true ∧ (orderWrite oenv oself w).isOk = true := by
  have hc : crmEnsureAndValidate cenv v = .error () := by
    unfold crmEnsureAndValidate
    rw [if_pos (by simpa using hv)]
  have ho : orderEnsureAndValidate oenv v = .error () := by
    unfold orderEnsureAndValidate
    rw [if_pos (by simpa using hv)]
  refine ⟨?_, ?_, rfl, rfl⟩
  · unfold crmCreate
    rw [hc]; rfl
  · unfold orderCreate
    rw [ho]; rfl

/-- Claim C7: on both models `_ensure_auto_descriptions` (through which
`create` and `write` route every vals dict) fills exactly the absent
description keys with the generated Vietnamese texts derived from
`group_field`, `value_field` and `domain` (vals values with the
single-existing-record fallback), passes the description keys already
present through unchanged, and modifies no other key of the dict. -/
theorem C7_descriptions_frame (cenv : CrmEnv) (cself : List CrmReport)
    (oenv : OrderEnv) (oself : List OrderReport) (v : Vals) (k : String) :
    (vhas v k = true → dictGet (crmEnsureAuto cenv cself v) k = dictGet v k) ∧
    ((k ≠ "pie_description" ∧ k ≠ "bar_description" ∧ k ≠ "line_description") →
      dictGet (crmEnsureAuto cenv cself v) k = dictGet v k) ∧
    (vhas v "pie_description" = false →
      dictGet (crmEnsureAuto cenv cself v) "pie_description" =
        some (.vstr (crmGenPie cenv
          (ensureFallback (·.ex) cself (vget v "group_field") (·.group_field))))) ∧
    (vhas v "bar_description" = false →
      dictGet (crmEnsureAuto cenv cself v) "bar_description" =
        some (.vstr (crmGenBar cenv
          (ensureFallback (·.ex) cself (vget v "group_field") (·.group_field))
          (ensureFallback (·.ex) cself (vget v "value_field") (·.value_field))))) ∧
    (vhas v "line_description" = false →
      dictGet (crmEnsureAuto cenv cself v) "line_description" =
        some (.vstr (crmGenLine cenv
          (ensureFallback (·.ex) cself (vget v "value_field") (·.value_field))
          (ensureFallback (·.ex) cself (vget v "domain") (·.domain))))) ∧
    (vhas v k = true → dictGet (orderEnsureAuto oenv oself v) k = dictGet v k) ∧
    ((k ≠ "pie_description" ∧ k ≠ "bar_description" ∧ k ≠ "line_description") →
      dictGet (orderEnsureAuto oenv oself v) k = dictGet v k) ∧
    (vhas v "pie_description" = false →
      dictGet (orderEnsureAuto oenv oself v) "pie_description" =
        some (.vstr (orderGenPie oenv
          (ensureFallback (·.ex) oself (vget v "group_field") (·.group_field))))) ∧
    (vhas v "bar_description" = false →
      dictGet (orderEnsureAuto oenv oself v) "bar_description" =
        some (.vstr (orderGenBar oenv
          (ensureFallback (·.ex) oself (vget v "group_field") (·.group_field))
          (ensureFallback (·.ex) oself (vget v "value_field") (·.value_field))))) ∧
    (vhas v "line_description" = false →
      dictGet (orderEnsureAuto oenv oself v) "line_description" =
        some (.vstr (orderGenLine oenv
          (ensureFallback (·.ex) oself (vget v "value_field") (·.value_field))
          (ensureFallback (·.ex) oself (vget v "domain") (·.domain))))) := by
  refine ⟨fun h => ?_, fun hk => ?_, fun h => ?_, fun h => ?_, fun h => ?_,
    fun h => ?_, fun hk => ?_, fun h => ?_, fun h => ?_, fun h => ?_⟩ <;>
    simp only [crmEnsureAuto, orderEnsureAuto]
  · by_cases hk : k = "pie_description" ∨ k = "bar_description" ∨ k = "line_description"
    · exact fillDescriptions_present _ _ _ _ _ hk h
    · push_neg at hk
      exact fillDescriptions_other _ _ _ _ _ hk.1 hk.2.1 hk.2.2
  · exact fillDescriptions_other _ _ _ _ _ hk.1 hk.2.1 hk.2.2
  · exact fillDescriptions_absent_pie _ _ _ _ h
  · exact fillDescriptions_absent_bar _ _ _ _ h
  · exact fillDescriptions_absent_line _ _ _ _ h
  · by_cases hk : k = "pie_description" ∨ k = "bar_description" ∨ k = "line_description"
    · exact fillDescriptions_present _ _ _ _ _ hk h
    · push_neg at hk
      exact fillDescriptions_other _ _ _ _ _ hk.1 hk.2.1 hk.2.2
  · exact fillDescriptions_other _ _ _ _ _ hk.1 hk.2.1 hk.2.2
  · exact fillDescriptions_absent_pie _ _ _ _ h
  · exact fillDescriptions_absent_bar _ _ _ _ h
  · exact fillDescriptions_absent_line _ _ _ _ h

/-- Claim C8: on every environment and record, `get_chart_data` of both
models returns the five-field dict whose `labels`, `count_values` and
`sum_values` have equal length and whose `line_labels` and `line_values`
have equal length (all five are lists, never None, by construction of
`ChartData`). -/
theorem C8_shape (cenv : CrmEnv) (r : CrmReport) (oenv : OrderEnv) (s : OrderReport) :
    ((crmGetChartData cenv r).labels.length =
        (crmGetChartData cenv r).count_values.length ∧
      (crmGetChartData cenv r).count_values.length =
        (crmGetChartData cenv r).sum_values.length ∧
      (crmGetChartData cenv r).line_labels.length =
        (crmGetChartData cenv r).line_values.length) ∧
    ((orderGetChartData oenv s).labels.length =
        (orderGetChartData oenv s).count_values.length ∧
      (orderGetChartData oenv s).count_values.length =
        (orderGetChartData oenv s).sum_values.length ∧
      (orderGetChartData oenv s).line_labels.length =
        (orderGetChartData oenv s).line_values.length) := by
  constructor
  · cases hb : crmChartBody cenv r with
    | error e => simp [crmGetChartData, hb, zeroChart]
    | ok d =>
      obtain ⟨a, b, c, ll, lv, h1, h2, rfl⟩ := crmChartBody_ok cenv r d hb
      have hs := crmMainPart_shape cenv r _ _ h1
      have ht := tsPart_labels _ _ _ _ _ _ h2
      simp only [crmGetChartData, hb]
      refine ⟨hs.1, hs.2, ?_⟩
      have h14 : lv.length = 14 := ht.2
      have hll : ll = (List.range 14).map
          (fun i : Nat => fmtDate (cenv.today - 13 + (i : Int))) := ht.1
      rw [h14, hll]
      simp
  · cases hb : orderChartBody oenv s with
    | error e => simp [orderGetChartData, hb, zeroChart]
    | ok d =>
      obtain ⟨a, b, c, ll, lv, h1, h2, rfl⟩ := orderChartBody_ok oenv s d hb
      have hs := orderMainPart_shape oenv s _ _ h1
      have ht := tsPart_labels _ _ _ _ _ _ h2
      simp only [orderGetChartData, hb]
      refine ⟨hs.1, hs.2, ?_⟩
      have h14 : lv.length = 14 := ht.2
      have hll : ll = (List.range 14).map
          (fun i : Nat => fmtDate (oenv.today - 13 + (i : Int))) := ht.1
      rw [h14, hll]
      simp

/-- A crm environment with a success domain evaluating non-empty and no
matching records at all. -/
def cenvC9 : CrmEnv where
  safeEval := fun _ => .ok [.vtup3 (.vstr "stage_id") (.vstr "=") (.vstr "won")]
  readGroup := fun _ _ _ => .ok []
  searchCount := fun _ => .ok 0
  fieldDesc := fun _ => none
  today := 20000

/-- A report with a success domain and no value field. -/
def rC9 : CrmReport := { success_domain := "[won]" }

/-- Counterexample to claim C9: with a success domain set and no value
field, a day with no matching records yields the float `0.0` in
`line_values`, not the integer `0` the claim requires for reports without a
value field. -/
theorem C9_counterexample :
    rC9.value_field = "" ∧
    (crmGetChartData cenvC9 rC9).line_values.get? 0 = some (.vfloat 0) ∧
    some (PVal.vfloat 0) ≠ some (PVal.vint 0) := by
  refine ⟨rfl, ?_, by decide⟩
  have h : (crmGetChartData cenvC9 rC9).line_values.get? 0 =
      some (.vfloat (pround 1 0)) := rfl
  rw [h, pround_zero]

/-- Claim C9 as amended: on every non-error run of `get_chart_data` (both
models), `line_labels` is exactly the 14 consecutive calendar dates ending
at the context today, formatted `%Y-%m-%d` ascending, with one `line_values`
entry per day; a day absent from the time-series aggregation maps defaults
to the integer `0` when neither a value field nor a success domain is set,
and to the float `0.0` when a value field is set or when the crm success
branch is active. -/
theorem C9_amended (cenv : CrmEnv) (r : CrmReport) (oenv : OrderEnv)
    (s : OrderReport) (dc dox : ChartData) (vf : String) (sd : List PVal)
    (m1 m2 : List (String × PVal)) (today : Int) (i : Nat) (p : String × PVal)
    (hc : crmChartBody cenv r = .ok dc) (ho : orderChartBody oenv s = .ok dox)
    (hday : tsDay vf sd m1 m2 today i = .ok p)
    (hm1 : dictGet m1 p.1 = none) (hm2 : dictGet m2 p.1 = none) :
    dc.line_labels =
      (List.range 14).map (fun j : Nat => fmtDate (cenv.today - 13 + (j : Int))) ∧
    dc.line_values.length = 14 ∧
    dox.line_labels =
      (List.range 14).map (fun j : Nat => fmtDate (oenv.today - 13 + (j : Int))) ∧
    dox.line_values.length = 14 ∧
    (sd = [] → vf = "" → p.2 = .vint 0) ∧
    (sd = [] → vf ≠ "" → p.2 = .vfloat 0) ∧
    (sd ≠ [] → p.2 = .vfloat 0) := by
  obtain ⟨a, b, c, ll, lv, h1, h2, rfl⟩ := crmChartBody_ok cenv r dc hc
  obtain ⟨a2, b2, c2, ll2, lv2, g1, g2, rfl⟩ := orderChartBody_ok oenv s dox ho
  have htc := tsPart_labels _ _ _ _ _ _ h2
  have hto := tsPart_labels _ _ _ _ _ _ g2
  refine ⟨htc.1, htc.2, hto.1, hto.2, ?_, ?_, ?_⟩
  · intro hsd hvf
    subst hsd
    unfold tsDay at hday
    rw [if_neg (by simp)] at hday
    injection hday with hday
    subst hday
    dsimp only at hm1 ⊢
    simp [hm1, hvf]
  · intro hsd hvf
    subst hsd
    unfold tsDay at hday
    rw [if_neg (by simp)] at hday
    injection hday with hday
    subst hday
    dsimp only at hm1 ⊢
    simp [hm1, hvf]
  · intro hsd
    unfold tsDay at hday
    rw [if_pos hsd] at hday
    obtain ⟨q, hq, hday⟩ := exBind_ok hday
    have hp := exPure_ok hday
    subst hp
    dsimp only at hm1 hm2 ⊢
    unfold succPerc at hq
    rw [hm1, hm2] at hq
    simp only [Option.getD] at hq
    rw [if_neg (by decide)] at hq
    have hq0 := exPure_ok hq
    subst hq0
    simp [pround_zero]

/-- Witness for the amended C9 at concrete environments: both charts carry
the 14 formatted day labels, 14 values, and a day missing from the maps
defaults to the integer `0` when no value field and no success domain are
set. -/
theorem C9_amended_witness :
    (crmGetChartData cenvW {}).line_labels =
      (List.range 14).map (fun j : Nat => fmtDate (cenvW.today - 13 + (j : Int))) ∧
    (crmGetChartData cenvW {}).line_values.length = 14 ∧
    (orderGetChartData oenvW {}).line_labels =
      (List.range 14).map (fun j : Nat => fmtDate (oenvW.today - 13 + (j : Int))) ∧
    (orderGetChartData oenvW {}).line_values.length = 14 ∧
    (("2024-09-21", PVal.vint 0) : String × PVal).2 = PVal.vint 0 :=
  have h := C9_amended cenvW {} oenvW {} (crmGetChartData cenvW {})
    (orderGetChartData oenvW {}) "" [] [] [] 20000 0 ("2024-09-21", PVal.vint 0)
    rfl rfl rfl rfl rfl
  ⟨h.1, h.2.1, h.2.2.1, h.2.2.2.1, h.2.2.2.2.1 rfl rfl⟩

/-- An invariant preserved by each step of `exFold` holds of the result. -/
theorem exFold_invariant {σ α : Type} (P : σ → Prop) (f : σ → α → Except Unit σ)
    (hf : ∀ s a s', P s → f s a = .ok s' → P s') :
    ∀ (l : List α) (s0 s : σ), P s0 → exFold f s0 l = .ok s → P s := by
  intro l
  induction l with
  | nil =>
    intro s0 s h0 h
    simp only [exFold] at h
    injection h with h
    subst h
    exact h0
  | cons a t ih =>
    intro s0 s h0 h
    simp only [exFold] at h
    obtain ⟨s1, h1, h2⟩ := exBind_ok h
    exact ih s1 s (hf s0 a s1 h0 h1) h2

/-- Members of `dictSet` are the new pair or members of the original. -/
theorem dictSet_mem {κ α : Type} [DecidableEq κ] (m : List (κ × α)) (k : κ) (v : α)
    (p : κ × α) (h : p ∈ dictSet m k v) : p = (k, v) ∨ p ∈ m := by
  induction m with
  | nil =>
    simp [dictSet] at h
    exact Or.inl h
  | cons q t ih =>
    obtain ⟨k0, v0⟩ := q
    by_cases hk : k0 = k
    · simp [dictSet, hk] at h
      rcases h with h | h
      · exact Or.inl h
      · exact Or.inr (by simp [h])
    · simp [dictSet, hk] at h
      rcases h with h | h
      · exact Or.inr (by simp [h])
      · rcases ih h with h2 | h2
        · exact Or.inl h2
        · exact Or.inr (by simp [h2])

/-- A successful lookup is a member. -/
theorem dictGet_mem {κ α : Type} [DecidableEq κ] (m : List (κ × α)) (k : κ) (v : α)
    (h : dictGet m k = some v) : (k, v) ∈ m := by
  induction m with
  | nil => simp [dictGet] at h
  | cons q t ih =>
    obtain ⟨k0, v0⟩ := q
    by_cases hk : k0 = k
    · subst hk
      simp [dictGet] at h
      simp [h]
    · simp [dictGet, hk] at h
      simp [ih h]

/-- With no value field, every value of the time-series map is an integer
count. -/
theorem tsMapOf_counts (rows : List Row) (m : List (String × PVal))
    (h : tsMapOf "" rows = .ok m) :
    ∀ p ∈ m, ∃ n : Int, p.2 = .vint n := by
  refine exFold_invariant (fun m => ∀ p ∈ m, ∃ n : Int, p.2 = .vint n) _
    ?_ rows [] m (by simp) h
  intro s g s' hs hstep
  obtain ⟨day, hday, hstep⟩ := exBind_ok hstep
  have h2 := exPure_ok hstep
  subst h2
  intro p hp
  rcases dictSet_mem _ _ _ _ hp with hp | hp
  · subst hp
    exact ⟨g.count, by simp⟩
  · exact hs p hp

/-- Every value of the success map is an integer count. -/
theorem tsSuccMapOf_counts (rows : List Row) (m : List (String × PVal))
    (h : tsSuccMapOf rows = .ok m) :
    ∀ p ∈ m, ∃ n : Int, p.2 = .vint n := by
  refine exFold_invariant (fun m => ∀ p ∈ m, ∃ n : Int, p.2 = .vint n) _
    ?_ rows [] m (by simp) h
  intro s g s' hs hstep
  obtain ⟨day, hday, hstep⟩ := exBind_ok hstep
  have h2 := exPure_ok hstep
  subst h2
  intro p hp
  rcases dictSet_mem _ _ _ _ hp with hp | hp
  · subst hp
    exact ⟨g.count, rfl⟩
  · exact hs p hp

/-- Spec-side reading of a day count from an aggregation map. -/
def mapCount (m : List (String × PVal)) (k : String) : Int :=
  match dictGet m k with
  | some (.vint n) => n
  | _ => 0

/-- On a count-valued map, the code's defaulted lookup is the spec-side
count. -/
theorem mapCount_getD (m : List (String × PVal)) (k : String)
    (hm : ∀ p ∈ m, ∃ n : Int, p.2 = .vint n) :
    (dictGet m k).getD (.vint 0) = .vint (mapCount m k) := by
  unfold mapCount
  cases h : dictGet m k with
  | none => rfl
  | some v =>
    obtain ⟨n, hn⟩ := hm (k, v) (dictGet_mem _ _ _ h)
    simp at hn
    subst hn
    rfl

/-- Pointwise reading of a successful `exMap`. -/
theorem exMap_ok_get {α β : Type} {f : α → Except Unit β} :
    ∀ {l : List α} {l' : List β}, exMap f l = .ok l' → ∀ (i : Nat) (a : α),
      l.get? i = some a → ∃ b, l'.get? i = some b ∧ f a = .ok b := by
  intro l
  induction l with
  | nil =>
    intro l' h i a ha
    simp at ha
  | cons x t ih =>
    intro l' h i a ha
    simp only [exMap] at h
    obtain ⟨b, hb, h⟩ := exBind_ok h
    obtain ⟨bs, hbs, h⟩ := exBind_ok h
    have h2 := exPure_ok h
    subst h2
    cases i with
    | zero =>
      rw [List.get?_cons_zero] at ha
      injection ha with ha
      subst ha
      exact ⟨b, rfl, hb⟩
    | succ j =>
      rw [List.get?_cons_succ] at ha
      obtain ⟨c, hc, hfc⟩ := ih hbs j a ha
      exact ⟨c, by rw [List.get?_cons_succ]; exact hc, hfc⟩

/-- Strong inversion of a successful `tsPart`: the built maps and the
per-day pairs. -/
theorem tsPart_inv (rgF : List PVal → List String → List String → Except Unit (List Row))
    (today : Int) (vf : String) (dom sd : List PVal) (p : List String × List PVal)
    (h : tsPart rgF today vf dom sd = .ok p) :
    ∃ m1 m2 pairs,
      tsMapOf vf (tsGroupsOf rgF today vf dom) = .ok m1 ∧
      tsSuccPart rgF (tsDomOf today dom) sd = .ok m2 ∧
      exMap (tsDay vf sd m1 m2 today) (List.range 14) = .ok pairs ∧
      p.1 = pairs.map (·.1) ∧ p.2 = pairs.map (·.2) := by
  unfold tsPart at h
  obtain ⟨m1, h1, h⟩ := exBind_ok h
  obtain ⟨m2, h2, h⟩ := exBind_ok h
  obtain ⟨pairs, h3, h⟩ := exBind_ok h
  have h4 := exPure_ok h
  subst h4
  exact ⟨m1, m2, pairs, h1, h2, h3, rfl, rfl⟩

/-- Spec-side resolution of one top-level group row, following the claim:
resolve first, then carry the bucket key, its label text, the group count
and the float sum increment. -/
def resolveQuad (env : OrderEnv) (top relField : String) (relModel : Option String)
    (sumMapTop : List (PVal × PVal)) (g : Row) :
    Except Unit (PVal × String × Int × ℚ) := do
  let (relId, relLabel, relSum) ← resolveGroup env top relField relModel sumMapTop g
  let q ← (pyOr relSum (.vfloat 0)).pfloat
  return (relId, relLabel.pstr, g.count, q)

/-- The pure bucket update on one resolved quadruple. -/
def upsertQuad (bs : List (PVal × GroupEntry)) (x : PVal × String × Int × ℚ) :
    List (PVal × GroupEntry) :=
  let b0 :=
    match dictGet bs x.1 with
    | some b => b
    | none => { gid := x.1, label := x.2.1, count := 0, sum := 0 }
  dictSet bs x.1 { b0 with count := b0.count + x.2.2.1, sum := b0.sum + x.2.2.2 }

/-- Spec-side: the distinct resolved keys in order of first appearance,
given the keys already seen. -/
def firstKeys (seen : List PVal) : List (PVal × String × Int × ℚ) → List PVal
  | [] => []
  | x :: t =>
    if x.1 ∈ seen then firstKeys seen t
    else x.1 :: firstKeys (seen ++ [x.1]) t

/-- Spec-side: total count of the quadruples with resolved key `k`. -/
def keyCount (qs : List (PVal × String × Int × ℚ)) (k : PVal) : Int :=
  ((qs.filter (fun x => x.1 = k)).map (fun x => x.2.2.1)).sum

/-- Spec-side: total sum of the quadruples with resolved key `k`. -/
def keySum (qs : List (PVal × String × Int × ℚ)) (k : PVal) : ℚ :=
  ((qs.filter (fun x => x.1 = k)).map (fun x => x.2.2.2)).sum

/-- Spec-side: the label of the first quadruple with resolved key `k`. -/
def firstLabel (qs : List (PVal × String × Int × ℚ)) (k : PVal) : String :=
  (((qs.filter (fun x => x.1 = k)).head?).map (fun x => x.2.1)).getD ""

/-- Setting an existing key keeps the key list. -/
theorem dictSet_keys_mem {κ α : Type} [DecidableEq κ] (m : List (κ × α)) (k : κ)
    (v : α) (h : dictGet m k ≠ none) :
    (dictSet m k v).map (fun p => p.1) = m.map (fun p => p.1) := by
  induction m with
  | nil => simp [dictGet] at h
  | cons q t ih =>
    obtain ⟨k0, v0⟩ := q
    by_cases hk : k0 = k
    · simp [dictSet, hk]
    · simp only [dictGet, if_neg hk] at h
      simp [dictSet, hk, ih h]

/-- Setting a new key appends it to the key list. -/
theorem dictSet_keys_new {κ α : Type} [DecidableEq κ] (m : List (κ × α)) (k : κ)
    (v : α) (h : dictGet m k = none) :
    (dictSet m k v).map (fun p => p.1) = m.map (fun p => p.1) ++ [k] := by
  induction m with
  | nil => simp [dictSet]
  | cons q t ih =>
    obtain ⟨k0, v0⟩ := q
    by_cases hk : k0 = k
    · subst hk
      simp [dictGet] at h
    · simp only [dictGet, if_neg hk] at h
      simp [dictSet, hk, ih h]

/-- A lookup misses exactly the absent keys. -/
theorem dictGet_none_iff {κ α : Type} [DecidableEq κ] (m : List (κ × α)) (k : κ) :
    dictGet m k = none ↔ k ∉ m.map (fun p => p.1) := by
  induction m with
  | nil => simp [dictGet]
  | cons q t ih =>
    obtain ⟨k0, v0⟩ := q
    by_cases hk : k0 = k
    · subst hk
      simp [dictGet]
    · simp [dictGet, hk, ih, (show k ≠ k0 from fun he => hk he.symm)]

/-- On duplicate-free keys each member is found by lookup. -/
theorem dictGet_of_mem_nodup {κ α : Type} [DecidableEq κ] (m : List (κ × α))
    (k : κ) (v : α) (hnd : (m.map (fun p => p.1)).Nodup) (h : (k, v) ∈ m) :
    dictGet m k = some v := by
  induction m with
  | nil => simp at h
  | cons q t ih =>
    obtain ⟨k0, v0⟩ := q
    rcases List.mem_cons.mp h with h | h
    · cases h
      simp [dictGet]
    · have hk : k0 ≠ k := by
        intro he
        subst he
        exact (List.nodup_cons.mp hnd).1 (List.mem_map.mpr ⟨(k0, v), h, rfl⟩)
      simp only [dictGet, if_neg hk]
      exact ih (List.nodup_cons.mp hnd).2 h

/-- Keys produced by `firstKeys` avoid the seen keys and are duplicate
free. -/
theorem firstKeys_fresh :
    ∀ (qs : List (PVal × String × Int × ℚ)) (seen : List PVal),
      (∀ k ∈ firstKeys seen qs, k ∉ seen) ∧ (firstKeys seen qs).Nodup := by
  intro qs
  induction qs with
  | nil =>
    intro seen
    simp [firstKeys]
  | cons x t ih =>
    intro seen
    simp only [firstKeys]
    split
    · exact ih seen
    · rename_i hx
      have iht := ih (seen ++ [x.1])
      constructor
      · intro k hk
        rcases List.mem_cons.mp hk with rfl | hk
        · exact hx
        · intro hks
          exact iht.1 k hk (by simp [hks])
      · refine List.nodup_cons.mpr ⟨?_, iht.2⟩
        intro hmem
        exact iht.1 x.1 hmem (by simp)

/-- Unfolding `keyCount` over a head element. -/
theorem keyCount_cons (x : PVal × String × Int × ℚ)
    (t : List (PVal × String × Int × ℚ)) (k : PVal) :
    keyCount (x :: t) k = (if x.1 = k then x.2.2.1 else 0) + keyCount t k := by
  by_cases hk : x.1 = k <;> simp [keyCount, List.filter_cons, hk]

/-- Unfolding `keySum` over a head element. -/
theorem keySum_cons (x : PVal × String × Int × ℚ)
    (t : List (PVal × String × Int × ℚ)) (k : PVal) :
    keySum (x :: t) k = (if x.1 = k then x.2.2.2 else 0) + keySum t k := by
  by_cases hk : x.1 = k <;> simp [keySum, List.filter_cons, hk]

/-- Unfolding `firstLabel` over a head element. -/
theorem firstLabel_cons (x : PVal × String × Int × ℚ)
    (t : List (PVal × String × Int × ℚ)) (k : PVal) :
    firstLabel (x :: t) k = if x.1 = k then x.2.1 else firstLabel t k := by
  by_cases hk : x.1 = k <;> simp [firstLabel, List.filter_cons, hk]

/-- Membership reading of a successful `exMap`. -/
theorem exMap_ok_mem {α β : Type} {f : α → Except Unit β} :
    ∀ {l : List α} {l' : List β}, exMap f l = .ok l' →
      ∀ b ∈ l', ∃ a ∈ l, f a = .ok b := by
  intro l
  induction l with
  | nil =>
    intro l' h b hb
    simp only [exMap] at h
    injection h with h
    subst h
    simp at hb
  | cons a t ih =>
    intro l' h b hb
    simp only [exMap] at h
    obtain ⟨b0, hb0, h⟩ := exBind_ok h
    obtain ⟨bs, hbs, h⟩ := exBind_ok h
    have h2 := exPure_ok h
    subst h2
    rcases List.mem_cons.mp hb with rfl | hb
    · exact ⟨a, by simp, hb0⟩
    · obtain ⟨a2, ha2, hfa⟩ := ih hbs b hb
      exact ⟨a2, by simp [ha2], hfa⟩

/-- A successful `bucketAdd` is an `upsertQuad` on the resolved
quadruple. -/
theorem bucketAdd_ok (bs : List (PVal × GroupEntry)) (relId relLabel : PVal)
    (cnt : Int) (relSum : PVal) (bs' : List (PVal × GroupEntry))
    (h : bucketAdd bs relId relLabel cnt relSum = .ok bs') :
    ∃ q, (pyOr relSum (.vfloat 0)).pfloat = .ok q ∧
      bs' = upsertQuad bs (relId, relLabel.pstr, cnt, q) := by
  unfold bucketAdd at h
  obtain ⟨q, hq, h⟩ := exBind_ok h
  have h2 := exPure_ok h
  exact ⟨q, hq, h2.symm⟩

/-- A truthy target never resolves to the `None` key. -/
theorem targetIdOf_ne_vnone (t : PVal) (ht : t.truthy = true) :
    targetIdOf t ≠ PVal.vnone := by
  cases t <;> simp_all [targetIdOf, PVal.truthy]

/-- A quadruple resolved to the `None` key carries the `Undefined` label. -/
theorem resolveGroup_undef (env : OrderEnv) (top relField : String)
    (relModel : Option String) (smt : List (PVal × PVal)) (g : Row)
    (relId relLabel relSum : PVal)
    (h : resolveGroup env top relField relModel smt g = .ok (relId, relLabel, relSum))
    (hn : relId = PVal.vnone) : relLabel = .vstr "Undefined" := by
  subst hn
  unfold resolveGroup at h
  obtain ⟨gid, hgid, h⟩ := exBind_ok h
  split at h
  · have h2 := exPure_ok h
    rw [Prod.mk.injEq, Prod.mk.injEq] at h2
    exact h2.2.1.symm
  · rename_i hgt
    cases relModel with
    | none =>
      dsimp only at h
      have h2 := exPure_ok h
      rw [Prod.mk.injEq, Prod.mk.injEq] at h2
      exact absurd h2.1 (by
        intro he
        apply hgt
        rw [he]
        decide)
    | some rm =>
      dsimp only at h
      cases hres : env.resolve rm gid relField with
      | error e =>
        rw [hres] at h
        have h2 := exPure_ok h
        rw [Prod.mk.injEq, Prod.mk.injEq] at h2
        exact h2.2.1.symm
      | ok target =>
        rw [hres] at h
        dsimp only at h
        split at h
        · rename_i htt
          have h2 := exPure_ok h
          rw [Prod.mk.injEq, Prod.mk.injEq] at h2
          exact absurd h2.1 (targetIdOf_ne_vnone target htt)
        · have h2 := exPure_ok h
          rw [Prod.mk.injEq, Prod.mk.injEq] at h2
          exact h2.2.1.symm

/-- The dotted bucket fold is the `upsertQuad` fold over the resolved
quadruples. -/
theorem dottedFold_quads (env : OrderEnv) (top relField : String)
    (relModel : Option String) (smt : List (PVal × PVal)) :
    ∀ (groups : List Row) (bs0 bs : List (PVal × GroupEntry)),
      exFold (fun bs g => do
          let (relId, relLabel, relSum) ← resolveGroup env top relField relModel smt g
          bucketAdd bs relId relLabel g.count relSum) bs0 groups = .ok bs →
      ∃ qs, exMap (resolveQuad env top relField relModel smt) groups = .ok qs ∧
        bs = qs.foldl upsertQuad bs0 := by
  intro groups
  induction groups with
  | nil =>
    intro bs0 bs h
    simp only [exFold] at h
    injection h with h
    subst h
    exact ⟨[], rfl, rfl⟩
  | cons g t ih =>
    intro bs0 bs h
    simp only [exFold] at h
    obtain ⟨bs1, h1, h2⟩ := exBind_ok h
    obtain ⟨⟨relId, relLabel, relSum⟩, hres, h1⟩ := exBind_ok h1
    obtain ⟨q, hq, hup⟩ := bucketAdd_ok _ _ _ _ _ _ h1
    obtain ⟨qs, hqs, hbs⟩ := ih bs1 bs h2
    have hfg : resolveQuad env top relField relModel smt g =
        .ok (relId, relLabel.pstr, g.count, q) := by
      unfold resolveQuad
      exact exBind_ok_intro hres (exBind_ok_intro hq rfl)
    refine ⟨(relId, relLabel.pstr, g.count, q) :: qs, ?_, ?_⟩
    · simp only [exMap]
      rw [hfg, hqs]
      rfl
    · rw [hbs, hup]
      rfl

/-- The fold of `upsertQuad` merges quadruples: keys in first-appearance
order, the stored gid equal to the key, and per-key totals and first
labels. -/
theorem foldUpsert_master :
    ∀ (qs : List (PVal × String × Int × ℚ)) (bs : List (PVal × GroupEntry)),
      (∀ p ∈ bs, p.2.gid = p.1) →
      ((qs.foldl upsertQuad bs).map (fun p => p.1) =
          bs.map (fun p => p.1) ++ firstKeys (bs.map (fun p => p.1)) qs ∧
        (∀ p ∈ qs.foldl upsertQuad bs, p.2.gid = p.1) ∧
        ∀ k e, dictGet (qs.foldl upsertQuad bs) k = some e →
          e.count = (match dictGet bs k with
            | some b => b.count
            | none => 0) + keyCount qs k ∧
          e.sum = (match dictGet bs k with
            | some b => b.sum
            | none => 0) + keySum qs k ∧
          e.label = (match dictGet bs k with
            | some b => b.label
            | none => firstLabel qs k)) := by
  intro qs
  induction qs with
  | nil =>
    intro bs hinv
    refine ⟨by simp [firstKeys], hinv, ?_⟩
    intro k e he
    rw [List.foldl_nil] at he
    rw [he]
    dsimp only
    refine ⟨by simp [keyCount], by simp [keySum], rfl⟩
  | cons x t ih =>
    intro bs hinv
    have hinv2 : ∀ p ∈ upsertQuad bs x, p.2.gid = p.1 := by
      intro p hp
      unfold upsertQuad at hp
      rcases dictSet_mem _ _ _ _ hp with hp | hp
      · subst hp
        cases hx : dictGet bs x.1 with
        | none => simp [hx]
        | some b =>
          simp [hx]
          exact hinv (x.1, b) (dictGet_mem _ _ _ hx)
      · exact hinv p hp
    obtain ⟨K, I, P⟩ := ih (upsertQuad bs x) hinv2
    rw [List.foldl_cons]
    refine ⟨?_, I, ?_⟩
    · rw [K]
      cases hx : dictGet bs x.1 with
      | some b =>
        have hmem : x.1 ∈ bs.map (fun p => p.1) := by
          by_contra hc
          rw [← dictGet_none_iff, hx] at hc
          exact Option.noConfusion hc
        have hkeys : (upsertQuad bs x).map (fun p => p.1) = bs.map (fun p => p.1) := by
          unfold upsertQuad
          exact dictSet_keys_mem _ _ _ (by rw [hx]; exact Option.some_ne_none b)
        rw [hkeys]
        simp only [firstKeys]
        rw [if_pos hmem]
      | none =>
        have hmem : x.1 ∉ bs.map (fun p => p.1) := (dictGet_none_iff bs x.1).mp hx
        have hkeys : (upsertQuad bs x).map (fun p => p.1) =
            bs.map (fun p => p.1) ++ [x.1] := by
          unfold upsertQuad
          exact dictSet_keys_new _ _ _ hx
        rw [hkeys]
        simp only [firstKeys]
        rw [if_neg hmem]
        simp
    · intro k e he
      obtain ⟨Pc, Ps, Pl⟩ := P k e he
      by_cases hk : k = x.1
      · subst hk
        have hb' : dictGet (upsertQuad bs x) x.1 =
            some (match dictGet bs x.1 with
              | some b => { b with count := b.count + x.2.2.1, sum := b.sum + x.2.2.2 }
              | none => { gid := x.1, label := x.2.1, count := 0 + x.2.2.1,
                          sum := 0 + x.2.2.2 }) := by
          unfold upsertQuad
          cases hx : dictGet bs x.1 with
          | some b =>
            dsimp only
            exact dictGet_dictSet_eq _ _ _
          | none =>
            dsimp only
            exact dictGet_dictSet_eq _ _ _
        rw [hb'] at Pc Ps Pl
        cases hx : dictGet bs x.1 with
        | some b =>
          rw [hx] at Pc Ps Pl
          dsimp only at Pc Ps Pl
          dsimp only
          rw [keyCount_cons, keySum_cons]
          refine ⟨by rw [Pc]; rw [if_pos rfl]; ring, by rw [Ps]; rw [if_pos rfl]; ring,
            by rw [Pl]⟩
        | none =>
          rw [hx] at Pc Ps Pl
          dsimp only at Pc Ps Pl
          dsimp only
          rw [keyCount_cons, keySum_cons, firstLabel_cons]
          refine ⟨by rw [Pc]; rw [if_pos rfl]; ring, by rw [Ps]; rw [if_pos rfl]; ring,
            by rw [Pl]; rw [if_pos rfl]⟩
      · have hne : dictGet (upsertQuad bs x) k = dictGet bs k := by
          unfold upsertQuad
          exact dictGet_dictSet_ne _ _ _ _ hk
        rw [hne] at Pc Ps Pl
        rw [keyCount_cons, keySum_cons, firstLabel_cons]
        rw [if_neg (fun hh => hk hh.symm), if_neg (fun hh => hk hh.symm),
          if_neg (fun hh => hk hh.symm)]
        refine ⟨by rw [Pc]; ring, by rw [Ps]; ring, by rw [Pl]⟩

/-- Claim C3 as amended: when the success domain evaluates non-empty and no
value field is set, each `line_values` entry is `round(100 * s / t, 1)`
with `t` the day's total count from the time-series aggregation and `s` the
day's count under the success domain, and the entry is `0.0` whenever `t`
is `0` (the division is guarded).  With a value field set the code divides
by the day's value-field sum instead, which the counterexample exhibits. -/
theorem C3_amended (env : CrmEnv) (r : CrmReport) (d : ChartData)
    (m1 m2 : List (String × PVal)) (i : Nat)
    (hvf : r.value_field = "")
    (hsd : crmSuccessDom env r ≠ [])
    (hd : crmChartBody env r = .ok d)
    (hm1 : tsMapOf r.value_field
      (tsGroupsOf env.readGroup env.today r.value_field (crmEvalDomain env r)) =
      .ok m1)
    (hm2 : tsSuccPart env.readGroup (tsDomOf env.today (crmEvalDomain env r))
      (crmSuccessDom env r) = .ok m2)
    (hi : i < 14) :
    (mapCount m1 (fmtDate (env.today - 13 + i)) = 0 →
      d.line_values.get? i = some (.vfloat 0)) ∧
    (mapCount m1 (fmtDate (env.today - 13 + i)) ≠ 0 →
      d.line_values.get? i = some (.vfloat (pround 1
        ((mapCount m2 (fmtDate (env.today - 13 + i)) : ℚ) /
          (mapCount m1 (fmtDate (env.today - 13 + i)) : ℚ) * 100)))) := by
  obtain ⟨a, b, c, ll, lv, h1, h2, rfl⟩ := crmChartBody_ok env r d hd
  obtain ⟨m1', m2', pairs, hm1', hm2', hpairs, hll, hlv⟩ :=
    tsPart_inv env.readGroup env.today r.value_field (crmEvalDomain env r)
      (crmSuccessDom env r) (ll, lv) h2
  rw [hm1] at hm1'
  injection hm1' with e1
  subst e1
  rw [hm2] at hm2'
  injection hm2' with e2
  subst e2
  have hv1 : ∀ p ∈ m1, ∃ n : Int, p.2 = .vint n := by
    rw [hvf] at hm1
    exact tsMapOf_counts _ _ hm1
  have hv2 : ∀ p ∈ m2, ∃ n : Int, p.2 = .vint n := by
    unfold tsSuccPart at hm2
    rw [if_pos hsd] at hm2
    exact tsSuccMapOf_counts _ _ hm2
  have hri : (List.range 14).get? i = some i := List.get?_range hi
  obtain ⟨pb, hpb, hday⟩ := exMap_ok_get hpairs i i hri
  have hlvi : lv.get? i = some pb.2 := by
    simp only at hlv
    rw [hlv, List.get?_map, hpb]
    rfl
  unfold tsDay at hday
  rw [if_pos hsd] at hday
  rw [show env.today - (13 - (i : Int)) = env.today - 13 + i from by omega] at hday
  rw [mapCount_getD m1 _ hv1, mapCount_getD m2 _ hv2] at hday
  obtain ⟨q, hq, hday⟩ := exBind_ok hday
  have hpb2 := exPure_ok hday
  subst hpb2
  constructor
  · intro h0
    rw [h0] at hq
    unfold succPerc at hq
    rw [if_neg (by decide)] at hq
    have hq0 := exPure_ok hq
    subst hq0
    rw [hlvi]
    simp [pround_zero]
  · intro h0
    unfold succPerc at hq
    rw [if_pos (by simp [PVal.truthy, h0])] at hq
    obtain ⟨sq, hsq, hq⟩ := exBind_ok hq
    obtain ⟨tq, htq, hq⟩ := exBind_ok hq
    have hqv := exPure_ok hq
    subst hqv
    simp only [PVal.pfloat] at hsq htq
    injection hsq with hsq
    injection htq with htq
    subst hsq
    subst htq
    rw [hlvi]

/-- The crm report and environment of the C3 counterexample: a value field
and a success domain together; the day's value sum is 200 while the day's
record count is 4 and the success count is 1. -/
def rC3 : CrmReport := { value_field := "expected_revenue", success_domain := "[sd]" }

/-- The environment of the C3 counterexample. -/
def cenvC3 : CrmEnv where
  safeEval := fun _ => .ok [.vtup3 (.vstr "stage_id") (.vstr "=") (.vstr "won")]
  readGroup := fun dom flds _ =>
    if flds = ["create_date", "expected_revenue"] then
      .ok [⟨[("create_date", .vstr (fmtDate 20000)),
             ("expected_revenue", .vfloat 200)], 4⟩]
    else if dom.length = 3 then
      .ok [⟨[("create_date", .vstr (fmtDate 20000))], 1⟩]
    else
      .ok [⟨[("create_date", .vstr (fmtDate 20000))], 4⟩]
  searchCount := fun _ => .ok 0
  fieldDesc := fun _ => none
  today := 20000

/-- Counterexample to claim C3: with a value field set, the percentage the
code computes divides the success count by the day's value-field sum (200),
not by the day's total record count (4): the entry is `round(1/200*100, 1)`
instead of the claimed `round(100*1/4, 1)`. -/
theorem C3_counterexample :
    tsMapOf "" (tsGroupsOf cenvC3.readGroup 20000 "" []) =
      .ok [(fmtDate 20000, .vint 4)] ∧
    (crmGetChartData cenvC3 rC3).line_values.get? 13 =
      some (.vfloat (pround 1 (((1 : Int) : ℚ) / (200 : ℚ) * 100))) ∧
    pround 1 (((1 : Int) : ℚ) / (200 : ℚ) * 100) ≠
      pround 1 (100 * ((1 : Int) : ℚ) / ((4 : Int) : ℚ)) := by
  refine ⟨rfl, rfl, ?_⟩
  have e1 : pround 1 (((1 : Int) : ℚ) / (200 : ℚ) * 100) = (5 : ℚ) / 10 := by
    unfold pround
    rw [show (((1 : Int) : ℚ) / (200 : ℚ) * 100) * (10 : ℚ) ^ 1 = (5 : ℚ) by
      push_cast
      norm_num]
    rw [show qround (5 : ℚ) = 5 from rfl]
    norm_num
  have e2 : pround 1 (100 * ((1 : Int) : ℚ) / ((4 : Int) : ℚ)) = (250 : ℚ) / 10 := by
    unfold pround
    rw [show (100 * ((1 : Int) : ℚ) / ((4 : Int) : ℚ)) * (10 : ℚ) ^ 1 = (250 : ℚ) by
      push_cast
      norm_num]
    rw [show qround (250 : ℚ) = 250 from rfl]
    norm_num
  rw [e1, e2]
  norm_num

/-- The crm report and environment of the C3 witness: success domain set,
no value field; the day's count is 4, the success count 1. -/
def rC3w : CrmReport := { success_domain := "[sd]" }

/-- The environment of the C3 witness. -/
def cenvC3w : CrmEnv where
  safeEval := fun _ => .ok [.vtup3 (.vstr "s") (.vstr "=") (.vstr "w")]
  readGroup := fun dom _ _ =>
    if dom.length = 3 then .ok [⟨[("create_date", .vstr (fmtDate 20000))], 1⟩]
    else .ok [⟨[("create_date", .vstr (fmtDate 20000))], 4⟩]
  searchCount := fun _ => .ok 0
  fieldDesc := fun _ => none
  today := 20000

/-- Witness for the amended C3: on the last day the entry is the rounded
percentage of 1 success out of 4 records. -/
theorem C3_amended_witness :
    (crmGetChartData cenvC3w rC3w).line_values.get? 13 =
      some (.vfloat (pround 1
        ((mapCount [(fmtDate 20000, PVal.vint 1)] (fmtDate (20000 - 13 + 13)) : ℚ) /
          (mapCount [(fmtDate 20000, PVal.vint 4)] (fmtDate (20000 - 13 + 13)) : ℚ) *
          100))) :=
  (C3_amended cenvC3w rC3w (crmGetChartData cenvC3w rC3w)
    [(fmtDate 20000, PVal.vint 4)] [(fmtDate 20000, PVal.vint 1)] 13
    rfl (by decide) rfl rfl rfl (by decide)).2 (by decide)

/-- Claim C4: with `group_field = 'date_order_weekday'` and a successful
run, `get_chart_data` of the order model returns exactly the 7 fixed
weekday labels Monday through Sunday; `count_values[i]` is the number of
searched records whose `date_order` falls on weekday `i` (records with a
missing or unparseable `date_order` excluded), and `sum_values[i]` is the
value-field sum of those records rounded to 2 decimals, `0.0` everywhere
when no value field is set. -/
theorem C4_weekday (env : OrderEnv) (s : OrderReport) (d : ChartData)
    (rows : List OrderRec)
    (hgf : s.group_field = "date_order_weekday")
    (hrows : env.search (orderEvalDomain env s) = .ok rows)
    (hd : orderChartBody env s = .ok d) :
    d.labels = weekdayNames ∧
    d.count_values = (List.range 7).map (specWkCount env rows) ∧
    d.sum_values = (List.range 7).map
      (fun i => PVal.vfloat (pround 2 (specWkSum env rows s.value_field i))) ∧
    (s.value_field = "" →
      d.sum_values = (List.range 7).map (fun _ => PVal.vfloat 0)) := by
  obtain ⟨a, b, c, ll, lv, h1, h2, rfl⟩ := orderChartBody_ok env s d hd
  unfold orderMainPart at h1
  rw [if_pos hgf] at h1
  obtain ⟨rows', m, hr, hm, ht⟩ := orderWeekdayPart_ok env s.value_field _ _ h1
  rw [hrows] at hr
  injection hr with hr
  subst hr
  have hspec := wkFold_spec env s.value_field rows (fun _ => 0, fun _ => 0) m hm
  have hc : (fun i => m.1 i) = fun i => specWkCount env rows i :=
    funext fun i => by
      have h := (hspec i).1
      simpa using h
  have hs : (fun i => PVal.vfloat (pround 2 (m.2 i))) =
      fun i => PVal.vfloat (pround 2 (specWkSum env rows s.value_field i)) :=
    funext fun i => by
      have h := (hspec i).2
      simp at h
      rw [h]
  rw [Prod.mk.injEq, Prod.mk.injEq] at ht
  obtain ⟨ha, hb, hcv⟩ := ht
  subst ha
  subst hb
  subst hcv
  refine ⟨rfl, by rw [hc], by rw [hs], fun hvf => ?_⟩
  rw [hs]
  have : (fun i => PVal.vfloat (pround 2 (specWkSum env rows s.value_field i))) =
      fun _ : Nat => PVal.vfloat 0 :=
    funext fun i => by
      simp [specWkSum, hvf, pround_zero]
  rw [this]

/-- An order environment whose `search` returns one Friday order, one order
with no `date_order` and one with an unparseable string. -/
def oenvC4 : OrderEnv where
  safeEval := fun _ => .error ()
  readGroup := fun _ _ _ => .ok []
  searchCount := fun _ => .ok 0
  search := fun _ => .ok [⟨.vdt 20000, []⟩, ⟨.vnone, []⟩, ⟨.vstr "bad", []⟩]
  strptime := fun _ => none
  fieldMeta := fun _ => none
  relFieldMeta := fun _ _ => none
  resolve := fun _ _ _ => .error ()
  today := 20000

/-- The rows `oenvC4.search` returns. -/
def rowsC4 : List OrderRec := [⟨.vdt 20000, []⟩, ⟨.vnone, []⟩, ⟨.vstr "bad", []⟩]

/-- Witness for C4 at a concrete environment: one parseable Friday order,
the other two records excluded, no value field. -/
theorem C4_weekday_witness :
    (orderGetChartData oenvC4 { group_field := "date_order_weekday" }).labels =
      weekdayNames ∧
    (orderGetChartData oenvC4 { group_field := "date_order_weekday" }).count_values =
      (List.range 7).map (specWkCount oenvC4 rowsC4) ∧
    (orderGetChartData oenvC4 { group_field := "date_order_weekday" }).sum_values =
      (List.range 7).map (fun _ => PVal.vfloat 0) :=
  have h := C4_weekday oenvC4 { group_field := "date_order_weekday" }
    (orderGetChartData oenvC4 { group_field := "date_order_weekday" }) rowsC4
    rfl rfl rfl
  ⟨h.1, h.2.1, h.2.2.2 rfl⟩

/-- An order environment whose `read_group` returns two `sale.order` groups
(no `value_field` data needed) and resolves partners 1 and 2 to countries 7
and 8. -/
def oenvC6 : OrderEnv where
  safeEval := fun _ => .error ()
  readGroup := fun _ _ _ => .ok
    [⟨[("partner_id", .vtup2 (.vint 1) (.vstr "P1")),
       ("user_id", .vtup2 (.vint 1) (.vstr "U1"))], 3⟩,
     ⟨[("partner_id", .vtup2 (.vint 2) (.vstr "P2")),
       ("user_id", .vtup2 (.vint 2) (.vstr "U2"))], 4⟩]
  searchCount := fun _ => .ok 0
  search := fun _ => .ok []
  strptime := fun _ => none
  fieldMeta := fun f =>
    if f = "partner_id" then some ⟨none, "many2one", some "res.partner"⟩ else none
  relFieldMeta := fun _ _ => none
  resolve := fun _ gid _ =>
    if gid = .vint 1 then .ok (.vrec 7 (.vstr "VN"))
    else if gid = .vint 2 then .ok (.vrec 8 (.vstr "US"))
    else .error ()
  today := 20000

/-- A crm environment whose `read_group` returns two `crm.lead` groups. -/
def cenvC6 : CrmEnv where
  safeEval := fun _ => .error ()
  readGroup := fun _ _ _ => .ok
    [⟨[("stage_id", .vtup2 (.vint 1) (.vstr "A"))], 3⟩,
     ⟨[("stage_id", .vtup2 (.vint 2) (.vstr "B"))], 4⟩]
  searchCount := fun _ => .ok 0
  fieldDesc := fun _ => none
  today := 20000

/-- A crm report grouped by stage with limit 1. -/
def rC6 : CrmReport := { group_field := "stage_id", limit := 1 }

/-- An order report grouped by a dotted relational field with limit 1. -/
def sC6 : OrderReport := { group_field := "partner_id.country_id", limit := 1 }

/-- The crm group entries produced by `cenvC6`. -/
def esC6 : List GroupEntry :=
  [⟨.vint 1, "A", 3, ((3 : Int) : ℚ)⟩, ⟨.vint 2, "B", 4, ((4 : Int) : ℚ)⟩]

/-- The order bucket entries produced by `oenvC6`. -/
def osC6 : List GroupEntry :=
  [⟨.vint 7, "VN", 3, 0 + 0⟩, ⟨.vint 8, "US", 4, 0 + 0⟩]

/-- Counterexample to claim C6: the plain (non-dotted, non-weekday) group
branch of the order model ignores the limit entirely; with limit 1 and two
groups the chart still carries two labels. -/
theorem C6_counterexample :
    ({ group_field := "user_id", limit := 1 } : OrderReport).limit = 1 ∧
    (orderGetChartData oenvC6
      { group_field := "user_id", limit := 1 }).labels.length = 2 :=
  ⟨rfl, rfl⟩

/-- Claim C6 as amended: the Top-N truncation exists only in the crm group
branch and the order dotted branch (shared `applyLimit`): there, with a
positive limit, at most `limit` entries survive, the kept entries are the
top ones sorted descending by per-group sum when a value field is set and
by count otherwise, and when the entry count does not exceed the limit the
entries pass through untruncated in `read_group` order; the weekday and
plain order branches apply no limit at all. -/
theorem C6_amended (cenv : CrmEnv) (r : CrmReport) (oenv : OrderEnv)
    (s : OrderReport) (vf : String) (limit : Int) (entries : List GroupEntry)
    (dom odom : List PVal) (es os : List GroupEntry)
    (t u : List String × List Int × List PVal)
    (hl : 0 < limit)
    (hgf : r.group_field ≠ "") (hce : crmEntries cenv r dom = .ok es)
    (ht : crmMainPart cenv r dom = .ok t)
    (hwd : s.group_field ≠ "date_order_weekday")
    (hdot : s.group_field ≠ "" ∧ strContains s.group_field '.')
    (hoe : orderDottedEntries oenv s odom = .ok os)
    (hu : orderMainPart oenv s odom = .ok u) :
    (entries.length ≤ limit.toNat → applyLimit limit vf entries = entries) ∧
    (limit.toNat < entries.length →
      (applyLimit limit vf entries).length = limit.toNat ∧
      applyLimit limit vf entries =
        (sortDescBy (entryKey vf) entries).take limit.toNat ∧
      List.Pairwise (fun a b => entryKey vf b ≤ entryKey vf a)
        (applyLimit limit vf entries) ∧
      ∃ dropped, entries.Perm (applyLimit limit vf entries ++ dropped) ∧
        ∀ x ∈ applyLimit limit vf entries, ∀ y ∈ dropped,
          entryKey vf y ≤ entryKey vf x) ∧
    t.1 = (applyLimit r.limit r.value_field es).map (fun e => e.label) ∧
    t.2.1 = (applyLimit r.limit r.value_field es).map (fun e => e.count) ∧
    t.2.2 = (applyLimit r.limit r.value_field es).map (fun e => PVal.vfloat e.sum) ∧
    u.1 = (applyLimit s.limit s.value_field os).map (fun e => e.label) ∧
    u.2.1 = (applyLimit s.limit s.value_field os).map (fun e => e.count) ∧
    u.2.2 = (applyLimit s.limit s.value_field os).map (fun e => PVal.vfloat e.sum) := by
  have hc := crmMainPart_group cenv r dom es t hgf hce ht
  have ho := orderMainPart_dotted oenv s odom os u hwd hdot hoe hu
  refine ⟨?_, ?_, by rw [hc], by rw [hc], by rw [hc], by rw [ho], by rw [ho],
    by rw [ho]⟩
  · intro hle
    unfold applyLimit
    rw [if_neg (by omega)]
  · intro hgt
    have hcond : 0 < limit ∧ limit.toNat < entries.length := ⟨hl, hgt⟩
    have heq : applyLimit limit vf entries =
        (sortDescBy (entryKey vf) entries).take limit.toNat := by
      unfold applyLimit
      rw [if_pos hcond]
    have hsortlen : (sortDescBy (entryKey vf) entries).length = entries.length :=
      (sortDescBy_perm (entryKey vf) entries).length_eq
    have hsorted := sortDescBy_pairwise (entryKey vf) entries
    refine ⟨?_, heq, ?_, ?_⟩
    · rw [heq, List.length_take, hsortlen]
      omega
    · rw [heq]
      exact hsorted.sublist (List.take_sublist _ _)
    · refine ⟨(sortDescBy (entryKey vf) entries).drop limit.toNat, ?_, ?_⟩
      · rw [heq, List.take_append_drop]
        exact (sortDescBy_perm (entryKey vf) entries).symm
      · intro x hx y hy
        rw [heq] at hx
        have hsplit := hsorted
        rw [← List.take_append_drop limit.toNat
          (sortDescBy (entryKey vf) entries)] at hsplit
        exact (List.pairwise_append.mp hsplit).2.2 x hx y hy

/-- Witness for the amended C6 at concrete environments: limit 1 keeps only
the top-count entry in the crm group branch and the order dotted branch. -/
theorem C6_amended_witness :
    (applyLimit 1 "" esC6).length = (1 : Int).toNat ∧
    (["B"], [(4 : Int)], [PVal.vfloat ((4 : Int) : ℚ)]).1 =
      (applyLimit rC6.limit rC6.value_field esC6).map (fun e => e.label) ∧
    (["US"], [(4 : Int)], [PVal.vfloat (0 + 0)]).1 =
      (applyLimit sC6.limit sC6.value_field osC6).map (fun e => e.label) := by
  have h := C6_amended cenvC6 rC6 oenvC6 sC6 "" 1 esC6 [] [] esC6 osC6
    (["B"], [(4 : Int)], [PVal.vfloat ((4 : Int) : ℚ)])
    (["US"], [(4 : Int)], [PVal.vfloat (0 + 0)])
    (by decide) (by decide) rfl rfl (by decide) ⟨by decide, by decide⟩ rfl rfl
  exact ⟨(h.2.1 (by decide)).1, h.2.2.1, h.2.2.2.2.2.1⟩

/-- A concrete vals dict: both required fields given, `bar_description`
explicitly provided, the other two descriptions absent. -/
def vC7 : Vals :=
  [("group_field", .vstr "stage_id"), ("value_field", .vstr "expected_revenue"),
   ("bar_description", .vstr "keep me")]

/-- Witness for C7 at a concrete vals dict: an unrelated key and a present
description key are untouched, and the absent description keys receive the
generated texts. -/
theorem C7_descriptions_frame_witness :
    dictGet (crmEnsureAuto cenvW [] vC7) "group_field" = dictGet vC7 "group_field" ∧
    dictGet (crmEnsureAuto cenvW [] vC7) "bar_description" =
      dictGet vC7 "bar_description" ∧
    dictGet (crmEnsureAuto cenvW [] vC7) "pie_description" =
      some (.vstr (crmGenPie cenvW
        (ensureFallback (·.ex) ([] : List CrmReport) (vget vC7 "group_field")
          (·.group_field)))) ∧
    dictGet (orderEnsureAuto oenvW [] vC7) "line_description" =
      some (.vstr (orderGenLine oenvW
        (ensureFallback (·.ex) ([] : List OrderReport) (vget vC7 "value_field")
          (·.value_field))
        (ensureFallback (·.ex) ([] : List OrderReport) (vget vC7 "domain")
          (·.domain)))) :=
  ⟨(C7_descriptions_frame cenvW [] oenvW [] vC7 "group_field").1 (by decide),
   (C7_descriptions_frame cenvW [] oenvW [] vC7 "bar_description").1 (by decide),
   (C7_descriptions_frame cenvW [] oenvW [] vC7 "group_field").2.2.1 (by decide),
   (C7_descriptions_frame cenvW [] oenvW [] vC7 "group_field").2.2.2.2.2.2.2.2.2
     (by decide)⟩

/-- Witness for the amended C2 at a vals dict missing `group_field`. -/
theorem C2_amended_witness :
    crmCreate cenvW [("value_field", PVal.vstr "expected_revenue")] = .error () ∧
    orderCreate oenvW [("value_field", PVal.vstr "expected_revenue")] = .error () ∧
    (crmWrite cenvW [] [("name", PVal.vstr "x")]).isOk = true ∧
    (orderWrite oenvW [] [("name", PVal.vstr "x")]).isOk = true :=
  C2_amended cenvW oenvW [("value_field", PVal.vstr "expected_revenue")]
    [("name", PVal.vstr "x")] [] [] (Or.inl (by decide))

/-- A quadruple resolved to the `None` key carries the `Undefined` label. -/
theorem resolveQuad_undef (env : OrderEnv) (top relField : String)
    (relModel : Option String) (smt : List (PVal × PVal)) (g : Row)
    (x : PVal × String × Int × ℚ)
    (h : resolveQuad env top relField relModel smt g = .ok x)
    (hn : x.1 = PVal.vnone) : x.2.1 = "Undefined" := by
  unfold resolveQuad at h
  obtain ⟨⟨relId, relLabel, relSum⟩, hres, h⟩ := exBind_ok h
  obtain ⟨q, hq, h⟩ := exBind_ok h
  have h2 := exPure_ok h
  subst h2
  dsimp only at hn ⊢
  rw [resolveGroup_undef env top relField relModel smt g relId relLabel relSum
    hres hn]
  rfl

/-- Claim C5: in the dotted branch of `LookerOrderReport.get_chart_data`
the orders are first grouped by the top-level field; each group is then
resolved through the related sub-field to a target quadruple of key, label,
count and value sum, and the quadruples are merged into one bucket per
distinct resolved target key, in order of first appearance, summing counts
and value sums and keeping the first label; groups with a falsy id and
groups whose target is unresolvable or falsy all resolve to the single
`None` key whose label is `Undefined`. -/
theorem C5_dotted (env : OrderEnv) (r : OrderReport) (dom : List PVal)
    (os : List GroupEntry)
    (h : orderDottedEntries env r dom = .ok os) :
    ∃ smt qs,
      sumMapOf env.readGroup dom (dottedTop r.group_field) r.value_field =
        .ok smt ∧
      exMap (resolveQuad env (dottedTop r.group_field) (dottedSub r.group_field)
          (orderRelModel env (dottedTop r.group_field)) smt)
        (topGroupsOf env dom (dottedTop r.group_field)) = .ok qs ∧
      os.map (fun e => e.gid) = firstKeys [] qs ∧
      (os.map (fun e => e.gid)).Nodup ∧
      (∀ e ∈ os, e.count = keyCount qs e.gid ∧ e.sum = keySum qs e.gid ∧
        e.label = firstLabel qs e.gid) ∧
      (∀ x ∈ qs, x.1 = PVal.vnone → x.2.1 = "Undefined") := by
  unfold orderDottedEntries at h
  obtain ⟨smt, hsm, h⟩ := exBind_ok h
  obtain ⟨bs, hfold, h⟩ := exBind_ok h
  have hos := exPure_ok h
  obtain ⟨qs, hqs, hbs⟩ := dottedFold_quads env (dottedTop r.group_field)
    (dottedSub r.group_field) (orderRelModel env (dottedTop r.group_field)) smt
    (topGroupsOf env dom (dottedTop r.group_field)) [] bs hfold
  obtain ⟨K, I, P⟩ := foldUpsert_master qs []
    (by intro p hp; exact absurd hp (List.not_mem_nil p))
  rw [← hbs] at K I P
  simp only [List.map_nil, List.nil_append] at K
  have hgid : os.map (fun e => e.gid) = firstKeys [] qs := by
    rw [← hos, List.map_map, ← K]
    exact List.map_congr_left (fun p hp => I p hp)
  have hnd : (bs.map (fun p => p.1)).Nodup := by
    rw [K]
    exact (firstKeys_fresh qs []).2
  refine ⟨smt, qs, hsm, hqs, hgid, ?_, ?_, ?_⟩
  · rw [hgid]
    exact (firstKeys_fresh qs []).2
  · intro e he
    rw [← hos] at he
    obtain ⟨p, hp, hpe⟩ := List.mem_map.mp he
    have hp1 : p.1 = e.gid := by
      rw [← hpe]
      exact (I p hp).symm
    have hpeq : p = (e.gid, e) := Prod.ext hp1 hpe
    have hget := dictGet_of_mem_nodup bs e.gid e hnd (hpeq ▸ hp)
    obtain ⟨Pc, Ps, Pl⟩ := P e.gid e hget
    dsimp only [dictGet] at Pc Ps Pl
    exact ⟨by rw [Pc]; exact zero_add _, by rw [Ps]; exact zero_add _, Pl⟩
  · intro x hx hn
    obtain ⟨g, hg, hfx⟩ := exMap_ok_mem hqs x hx
    exact resolveQuad_undef env (dottedTop r.group_field)
      (dottedSub r.group_field) (orderRelModel env (dottedTop r.group_field))
      smt g x hfx hn

/-- An order environment where the top groups of partners `1` and `2` both
resolve to the same country record `7` and a third group has a falsy
partner. -/
def oenvC5 : OrderEnv where
  safeEval := fun _ => .error ()
  readGroup := fun _ _ _ => .ok
    [⟨[("partner_id", .vtup2 (.vint 1) (.vstr "P1"))], 3⟩,
     ⟨[("partner_id", .vtup2 (.vint 2) (.vstr "P2"))], 4⟩,
     ⟨[("partner_id", .vbool false)], 5⟩]
  searchCount := fun _ => .ok 0
  search := fun _ => .ok []
  strptime := fun _ => none
  fieldMeta := fun f =>
    if f = "partner_id" then some ⟨none, "many2one", some "res.partner"⟩ else none
  relFieldMeta := fun _ _ => none
  resolve := fun _ gid _ =>
    if gid = .vint 1 then .ok (.vrec 7 (.vstr "VN"))
    else if gid = .vint 2 then .ok (.vrec 7 (.vstr "VN"))
    else .error ()
  today := 20000

/-- An order report grouped by a dotted relational field. -/
def rC5 : OrderReport := { group_field := "partner_id.country_id" }

/-- The merged buckets `oenvC5` produces: partners `1` and `2` share the
country bucket, the falsy group lands in the `Undefined` bucket. -/
def osC5 : List GroupEntry :=
  [⟨.vint 7, "VN", 7, 0 + 0 + 0⟩, ⟨.vnone, "Undefined", 5, 0 + 0⟩]

/-- Witness for C5: two partner groups merge into the shared country bucket
and the falsy group lands in `Undefined`, and the merge invariants hold. -/
theorem C5_dotted_witness :
    orderDottedEntries oenvC5 rC5 [] = .ok osC5 ∧
    (∃ smt qs,
      sumMapOf oenvC5.readGroup [] (dottedTop rC5.group_field)
        rC5.value_field = .ok smt ∧
      exMap (resolveQuad oenvC5 (dottedTop rC5.group_field)
          (dottedSub rC5.group_field)
          (orderRelModel oenvC5 (dottedTop rC5.group_field)) smt)
        (topGroupsOf oenvC5 [] (dottedTop rC5.group_field)) = .ok qs ∧
      osC5.map (fun e => e.gid) = firstKeys [] qs ∧
      (osC5.map (fun e => e.gid)).Nodup ∧
      (∀ e ∈ osC5, e.count = keyCount qs e.gid ∧ e.sum = keySum qs e.gid ∧
        e.label = firstLabel qs e.gid) ∧
      (∀ x ∈ qs, x.1 = PVal.vnone → x.2.1 = "Undefined")) :=
  ⟨rfl, C5_dotted oenvC5 rC5 [] osC5 rfl⟩


end LookerStudio
